import Mathlib

/-!
# longtest: metric and plain-text request generators

A shallow embedding of `src/metricSender.go` and `src/plainTextSender.go`.

Conventions of the embedding.

* A Go `float64` value is represented by the rational number it denotes. The constant
  `0.1` of line 93 is the `float64` nearest to one tenth, and the addition of line 98 rounds
  to `float64` (`roundF64`, to nearest, ties to even; no overflow arises for the sums met
  here). Conversions of integers, the doubling of line 97 and comparisons are exact; the
  arithmetic of the summary snapshot (lines 140-142, 159) is taken over exact reals.
  `int` is 64 bits wide; `uint64` tallies are natural numbers (a tally grows by at most
  one per loop iteration).
* The random source of the sender (`l.random`, `l.rnd.Float64`, `l.pickRandom`) is an
  input: the results of the calls are handed to the model, in call order.
* A Go slice of labels is a header (backing array, length, capacity) over a heap of
  backing arrays, so that `append` has the sharing behaviour of the language.
-/

namespace Longtest

/-! ## hash/crc32 -/

/-- One bit of the reflected CRC-32 division by the IEEE polynomial. -/
def crcStep (c : Nat) : Nat :=
  if c % 2 = 1 then (c / 2) ^^^ 0xEDB88320 else c / 2

/-- Feed one byte into the running CRC-32 register. -/
def crcByte (c : Nat) (b : Nat) : Nat :=
  crcStep^[8] (c ^^^ b)

/-- The function `crc32.ChecksumIEEE` on a byte sequence. -/
def checksumBytes (bs : List UInt8) : Nat :=
  (bs.foldl (fun c b => crcByte c b.toNat) 0xFFFFFFFF) ^^^ 0xFFFFFFFF

/-- The expression `crc32.ChecksumIEEE([]byte(s))`: the checksum of the UTF-8 bytes of `s`. -/
def ChecksumIEEE (s : String) : Nat :=
  checksumBytes s.toUTF8.toList

/-! ## prompb types -/

/-- The type `prompb.Label`. -/
structure Label where
  Name : String
  Value : String
deriving DecidableEq, Repr

/-- The type `prompb.Sample`. -/
structure Sample where
  Timestamp : Int
  Value : ℚ
deriving DecidableEq, Repr

/-- The type `prompb.TimeSeries`, with the label slice already read from memory. -/
structure TimeSeries where
  Labels : List Label
  Samples : List Sample
deriving DecidableEq, Repr

/-- The type `PromReq` of `metricSender.go`. -/
abbrev PromReq := List TimeSeries

/-! ## Go slices of labels -/

/-- A slice header of type `[]prompb.Label`: backing array, length and capacity. -/
structure LabelSlice where
  arr : Nat
  len : Nat
  cap : Nat
deriving DecidableEq, Repr

/-- The backing arrays allocated so far; array `i` has as many cells as its capacity. -/
abbrev LabelHeap := List (List Label)

/-- The zero value of `prompb.Label`. -/
def zeroLabel : Label := ⟨"", ""⟩

/-- The elements a slice header denotes in a heap. -/
def readSlice (h : LabelHeap) (s : LabelSlice) : List Label :=
  (h.getD s.arr []).take s.len

/-- The loop of `runtime.nextslicecap` for capacities of 256 and more. -/
def growLarge : Nat → Nat → Nat → Nat
  | 0, newcap, _ => newcap
  | fuel + 1, newcap, newLen =>
    let n := newcap + (newcap + 3 * 256) / 4
    if newLen ≤ n then n else growLarge fuel n newLen

/-- The capacity `runtime.growslice` asks for when a slice of capacity `oldCap` has to hold
`newLen` elements (the allocator may round it up to a size class, never down). -/
def nextslicecap (newLen oldCap : Nat) : Nat :=
  if oldCap + oldCap < newLen then newLen
  else if oldCap < 256 then oldCap + oldCap
  else growLarge newLen oldCap newLen

/-- The built-in `append(s, x)` for one element: when the capacity suffices the element is
written into the backing array of `s`, which the result shares; otherwise the elements are
copied into a new, larger array. -/
def goAppend (h : LabelHeap) (s : LabelSlice) (x : Label) : LabelHeap × LabelSlice :=
  if s.len < s.cap then
    (h.set s.arr ((h.getD s.arr []).set s.len x), { s with len := s.len + 1 })
  else
    let c := nextslicecap (s.len + 1) s.cap
    (h ++ [readSlice h s ++ x :: List.replicate (c - (s.len + 1)) zeroLabel],
      { arr := h.length, len := s.len + 1, cap := c })

/-- A time series under construction: its `Labels` field is a slice header. -/
structure RawSeries where
  Labels : LabelSlice
  Samples : List Sample
deriving DecidableEq, Repr

/-- Read the labels of a constructed series from memory. -/
def resolve (h : LabelHeap) (r : RawSeries) : TimeSeries :=
  { Labels := readSlice h r.Labels, Samples := r.Samples }

/-! ## State of the metric sender -/

/-- The struct `histogramState`; the map `buckets` is an association list, whose order stands
for an iteration order of the map. -/
structure histogramState where
  buckets : List (ℚ × Nat)
  sum : ℚ
  count : Nat
deriving DecidableEq, Repr

/-- The maps `counters` and `histograms` captured by the `generate` closure. -/
structure SenderState where
  counters : String → Option ℚ
  histograms : String → Option histogramState

/-- The state right after `NewMetricSender`: both maps are empty. -/
def initState : SenderState :=
  { counters := fun _ => none, histograms := fun _ => none }

/-- Map assignment `m[k] = v`. -/
def mapSet {V : Type} (m : String → Option V) (k : String) (v : V) : String → Option V :=
  fun j => if j = k then some v else m j

/-- Lookup `buckets[le]` in the bucket map, zero when the key is absent. -/
def bucketGet (bs : List (ℚ × Nat)) (le : ℚ) : Nat :=
  match bs.find? (fun p => p.1 = le) with
  | some p => p.2
  | none => 0

/-- The results of the random calls made for one container in one cycle, in call order. -/
structure Draws where
  random20 : Int
  random200 : Int
  random2000 : Int
  random5 : Int
  float97 : ℚ
  random500 : Int
  float141 : ℚ
  float142 : ℚ
deriving DecidableEq, Repr

/-! ## float64 -/

/-- The exponent `⌊log₂ x⌋` of a positive rational. -/
def floorLog2 (x : ℚ) : Int :=
  if 1 ≤ x then (Nat.log2 x.floor.toNat : Int)
  else -((Nat.log2 ((x⁻¹).ceil.toNat - 1) + 1 : Nat) : Int)

/-- The integer nearest to `m`, the even one of the two when `m` lies half way. -/
def roundHalfEven (m : ℚ) : Int :=
  if m - m.floor < 1 / 2 then m.floor
  else if 1 / 2 < m - m.floor then m.floor + 1
  else if m.floor % 2 = 0 then m.floor else m.floor + 1

/-- The `float64` (IEEE 754 binary64) nearest to a real number, ties to even: 53 significant
bits, least exponent -1022 (subnormal numbers below). Overflow is not modelled. -/
def roundF64 (x : ℚ) : ℚ :=
  if x = 0 then 0
  else
    let ulp : ℚ := 2 ^ (max (floorLog2 |x|) (-1022) - 52)
    (if x < 0 then -1 else 1) * roundHalfEven (|x| / ulp) * ulp

/-- The addition `a + b` of two `float64` values. -/
def f64Add (a b : ℚ) : ℚ := roundF64 (a + b)

/-- The `float64` value of the constant `0.1` (line 93). -/
def bucket01 : ℚ := roundF64 (1 / 10)

/-! ## fmt -/

/-- The decimal digits of `n`, with leading zeros up to `d` digits. -/
def padDigits (d n : Nat) : String :=
  String.mk (List.replicate (d - (Nat.repr n).length) '0') ++ Nat.repr n

/-- The decimal numeral of `n / 10 ^ d` with `d` digits after the point. -/
def renderDecimal (d n : Nat) : String :=
  if d = 0 then Nat.repr n
  else Nat.repr (n / 10 ^ d) ++ "." ++ padDigits d (n % 10 ^ d)

/-- The shortest decimal that reads back as the `float64` value `q`: the nearest decimal
with `d` digits after the point, for the least `d` that works. -/
def shortestDecimal : Nat → Nat → ℚ → String
  | 0, d, q => renderDecimal d (roundHalfEven (q * 10 ^ d)).toNat
  | fuel + 1, d, q =>
    if roundF64 ((roundHalfEven (q * 10 ^ d)).toNat / 10 ^ d) = q then
      renderDecimal d (roundHalfEven (q * 10 ^ d)).toNat
    else shortestDecimal fuel (d + 1) q

/-- The verb `%v` of `fmt.Sprintf` on a non-negative `float64` whose shortest decimal form
is plain (no exponent). -/
def sprintfV (q : ℚ) : String :=
  shortestDecimal 17 0 q

/-! ## The `generate` closure of `NewMetricSender` -/

/-- The request under construction together with the memory its label slices live in. -/
structure Builder where
  heap : LabelHeap
  out : List RawSeries

/-- The statement `req = append(req, prompb.TimeSeries{Labels: append(s, x),
Samples: []prompb.Sample{{Timestamp: now, Value: v}}})`. -/
def emit (now : Int) (b : Builder) (s : LabelSlice) (x : Label) (v : ℚ) : Builder :=
  let r := goAppend b.heap s x
  { heap := r.1, out := b.out ++ [{ Labels := r.2, Samples := [{ Timestamp := now, Value := v }] }] }

/-- The histogram state created on first reference to a container (lines 91-95). -/
def newHistogramState : histogramState :=
  { buckets := [(bucket01, 0), (0.5, 0), (1, 0), (5, 0)], sum := 0, count := 0 }

/-- Lines 91-96: the histogram state of a container, a new one when the map has none. -/
def histOf (st : SenderState) (container : String) : histogramState :=
  (st.histograms container).getD newHistogramState

/-- The value `math.Abs(l.rnd.Float64() * 2)` of line 97. -/
def observedLatency (d : Draws) : ℚ := |d.float97 * 2|

/-- Lines 96-104: add one observation to a histogram state. -/
def observe (h : histogramState) (v : ℚ) : histogramState :=
  { buckets := h.buckets.map (fun p => if v ≤ p.1 then (p.1, p.2 + 1) else p),
    sum := f64Add h.sum v,
    count := h.count + 1 }

/-- Lines 107-111: the keys of the bucket map, sorted by `sort.Float64s`. -/
def bucketKeys (h : histogramState) : List ℚ :=
  (h.buckets.map Prod.fst).insertionSort (· ≤ ·)

/-- The slice `baseLabels` of lines 63-67: it fills the first array of the memory of one
loop iteration, with length and capacity 3. -/
def baseLabels : LabelSlice := { arr := 0, len := 3, cap := 3 }

/-- The memory right after the composite literal of lines 63-67, and no series yet. -/
def startBuilder (container orgID : String) : Builder :=
  { heap := [[⟨"container", container⟩, ⟨"orgid", orgID⟩, ⟨"sender", "logmetrics"⟩]],
    out := [] }

/-- Lines 68-81: the three gauge series. -/
def emitGauges (now : Int) (base : Int) (d : Draws) (b : Builder) : Builder :=
  let b1 := emit now b baseLabels ⟨"__name__", "cpu_usage"⟩
    (max ((Int.tmod base 100 + (d.random20 - 10) : Int) : ℚ) 0)
  let b2 := emit now b1 baseLabels ⟨"__name__", "ram_usage"⟩
    (max ((Int.tmod base 1000 + (d.random200 - 100) : Int) : ℚ) 0)
  emit now b2 baseLabels ⟨"__name__", "network_usage"⟩
    (max ((Int.tmod base 1000000 + (d.random2000 - 1000) : Int) : ℚ) 0)

/-- Lines 106-135: the series of the histogram family, from the updated state `hState`. -/
def emitHistogram (now : Int) (hState : histogramState) (b : Builder) : Builder :=
  let histName := "request_latency_seconds"
  let hl := goAppend b.heap baseLabels ⟨"__name__", histName⟩
  let histLabels := hl.2
  let b6 := (bucketKeys hState).foldl
    (fun b le => emit now b histLabels ⟨"le", sprintfV le⟩ (bucketGet hState.buckets le))
    { heap := hl.1, out := b.out }
  let b7 := emit now b6 histLabels ⟨"le", "+Inf"⟩ hState.count
  let b8 := emit now b7 histLabels ⟨"__name__", histName ++ "_sum"⟩ hState.sum
  emit now b8 histLabels ⟨"__name__", histName ++ "_count"⟩ hState.count

/-- Lines 137-165: the series of the summary family. -/
def emitSummary (now : Int) (base : Int) (d : Draws) (b : Builder) : Builder :=
  let summaryName := "response_size_bytes"
  let sl := goAppend b.heap baseLabels ⟨"__name__", summaryName⟩
  let summaryLabels := sl.2
  let p50 : ℚ := ((Int.tmod base 1000 + d.random500 : Int) : ℚ)
  let p90 : ℚ := p50 * (1.5 + d.float141)
  let p99 : ℚ := p90 * (1.2 + d.float142)
  let b11 := emit now { heap := sl.1, out := b.out } summaryLabels ⟨"quantile", "0.5"⟩ p50
  let b12 := emit now b11 summaryLabels ⟨"quantile", "0.9"⟩ p90
  let b13 := emit now b12 summaryLabels ⟨"quantile", "0.99"⟩ p99
  let b14 := emit now b13 baseLabels ⟨"__name__", summaryName ++ "_sum"⟩ (p99 * 10)
  emit now b14 baseLabels ⟨"__name__", summaryName ++ "_count"⟩ 100

/-- The series of a finished loop iteration as the caller of `generate` reads them: the
labels of every series are what its slice header denotes in the final memory (no statement
outside the iteration writes to an array allocated in it). -/
def finish (b : Builder) : List TimeSeries :=
  b.out.map (resolve b.heap)

/-- The body of the loop over `l.Containers` (lines 61-165) for one container: the new state
and the series appended to the request. -/
def generateBody (orgID : String) (now : Int) (container : String) (d : Draws)
    (st : SenderState) : SenderState × List TimeSeries :=
  let base : Int := (ChecksumIEEE container : Nat)
  -- line 84
  let counter : ℚ := (st.counters container).getD 0 + ((d.random5 + 1 : Int) : ℚ)
  -- lines 91-104
  let hState := observe (histOf st container) (observedLatency d)
  ({ counters := mapSet st.counters container counter,
     histograms := mapSet st.histograms container hState },
    finish (emitSummary now base d (emitHistogram now hState
      (emit now (emitGauges now base d (startBuilder container orgID))
        baseLabels ⟨"__name__", "http_requests_total"⟩ counter))))

/-- The loop `for _, container := range l.Containers`; `i` is the position of the next
container and `rnd i` the random results drawn for it. -/
def generateLoop (orgID : String) (now : Int) (rnd : Nat → Draws) :
    List String → Nat → SenderState → PromReq → SenderState × PromReq
  | [], _, st, req => (st, req)
  | c :: cs, i, st, req =>
    let r := generateBody orgID now c (rnd i) st
    generateLoop orgID now rnd cs (i + 1) r.1 (req ++ r.2)

/-- The closure `generate` of `NewMetricSender`: one generation cycle over the containers,
with clock reading `now`, returning the new state and the request. -/
def NewMetricSender.generate (containers : List String) (orgID : String) (now : Int)
    (rnd : Nat → Draws) (st : SenderState) : SenderState × PromReq :=
  generateLoop orgID now rnd containers 0 st []

/-- The state after `n` consecutive calls of `generate` on a new sender; call `k + 1` reads
the clock as `now k` and draws `rnd k i` for the container at position `i`. -/
def stateAfter (containers : List String) (orgID : String) (now : Nat → Int)
    (rnd : Nat → Nat → Draws) : Nat → SenderState
  | 0 => initState
  | n + 1 =>
    (NewMetricSender.generate containers orgID (now n) (rnd n)
      (stateAfter containers orgID now rnd n)).1

/-- The request returned by call `n + 1` of `generate` on a new sender. -/
def batch (containers : List String) (orgID : String) (now : Nat → Int)
    (rnd : Nat → Nat → Draws) (n : Nat) : PromReq :=
  (NewMetricSender.generate containers orgID (now n) (rnd n)
    (stateAfter containers orgID now rnd n)).2

/-! ## plainTextSender.go -/

/-- A Go string: an immutable sequence of bytes. -/
abbrev GoString := List UInt8

/-- The struct `PlainTextReq`. -/
structure PlainTextReq where
  lines : List GoString
deriving DecidableEq, Repr

/-- The method `PlainTextReq.Serialize`: the bytes of the buffer and the error, which is
always nil (`none`). -/
def PlainTextReq.Serialize (p : PlainTextReq) : List UInt8 × Option String :=
  (p.lines.foldl (fun buf line => (buf ++ line) ++ [10]) [], none)

/-- The method `PlainTextReq.Size`. -/
def PlainTextReq.Size (p : PlainTextReq) : Int :=
  p.lines.length

/-- The loop `for i := 0; i < opts.LinesPS; i++ { req.lines[i] = l.pickRandom(opts.Lines) }`
with `n = opts.LinesPS`; `pickRandom k pool` is the result of call number `k` of
`l.pickRandom` on `pool`. -/
def fillLines (pickRandom : Nat → List GoString → GoString) (Lines : List GoString) (n : Nat) :
    Nat → Nat → List GoString → List GoString
  | 0, _, lines => lines
  | fuel + 1, i, lines =>
    if i < n then fillLines pickRandom Lines n fuel (i + 1) (lines.set i (pickRandom i Lines))
    else lines

/-- The closure `generate` of `NewPlainTextSender`; `none` stands for the run-time panic of
`make` on a negative length. -/
def NewPlainTextSender.generate (LinesPS : Int) (Lines : List GoString)
    (pickRandom : Nat → List GoString → GoString) : Option PlainTextReq :=
  if LinesPS < 0 then none
  else
    some ⟨fillLines pickRandom Lines LinesPS.toNat LinesPS.toNat 0
      (List.replicate LinesPS.toNat [])⟩

/-! ## Vocabulary of the statements -/

/-- The three labels every series of a container starts with (lines 63-67). -/
def baseLabelsOf (container orgID : String) : List Label :=
  [⟨"container", container⟩, ⟨"orgid", orgID⟩, ⟨"sender", "logmetrics"⟩]

/-- The labels found in the array that the seven series of the histogram family share, once
the loop body has run. -/
def histLabelsOf (container orgID : String) : List Label :=
  baseLabelsOf container orgID ++
    [⟨"__name__", "request_latency_seconds"⟩, ⟨"__name__", "request_latency_seconds_count"⟩]

/-- The labels found in the array that the three quantile series share, once the loop body
has run. -/
def quantileLabelsOf (container orgID : String) : List Label :=
  baseLabelsOf container orgID ++ [⟨"__name__", "response_size_bytes"⟩, ⟨"quantile", "0.99"⟩]

/-- The number of series the loop body appends for one container. -/
def seriesPerContainer : Nat := 16

/-- The series at offset `j` of the block of the container at position `i`. -/
def seriesAt (req : PromReq) (i j : Nat) : Option TimeSeries :=
  req[seriesPerContainer * i + j]?

/-- The sample values of the series at offset `j` of the block of container `i`. -/
def valuesAt (req : PromReq) (i j : Nat) : Option (List ℚ) :=
  (seriesAt req i j).map (fun t => t.Samples.map (fun s => s.Value))

/-- The bucket boundaries of every histogram state of the sender. -/
def boundaries : List ℚ := [bucket01, 0.5, 1, 5]

/-- Every stored histogram state has exactly the four boundaries as keys, in some order. -/
def StateOk (st : SenderState) : Prop :=
  ∀ c h, st.histograms c = some h → (h.buckets.map Prod.fst).Perm boundaries

/-- The delta applied to the counter of container `i` by call `n + 1` (line 84). -/
def delta (rnd : Nat → Nat → Draws) (n i : Nat) : Int :=
  (rnd n i).random5 + 1

/-- The latencies observed for `name` during one pass over the containers, in order. -/
def cycleObservations (name : String) (rnd : Nat → Draws) : List String → Nat → List ℚ
  | [], _ => []
  | c :: cs, i =>
    (if c = name then [observedLatency (rnd i)] else []) ++ cycleObservations name rnd cs (i + 1)

/-- The latencies observed for `name` during the first `n` calls of `generate`, in order. -/
def observations (containers : List String) (rnd : Nat → Nat → Draws) (name : String) :
    Nat → List ℚ
  | 0 => []
  | n + 1 => observations containers rnd name n ++ cycleObservations name (rnd n) containers 0

/-- The latencies observed for `name` from the creation of the sender up to and including
the loop iteration of position `i` in call `n + 1`. -/
def observedUpTo (containers : List String) (rnd : Nat → Nat → Draws) (name : String)
    (n i : Nat) : List ℚ :=
  observations containers rnd name n ++ cycleObservations name (rnd n) (containers.take (i + 1)) 0

/-- Draws used in the examples: every integer result within its range, raw uniform values in
`[0,1)`. -/
def sampleDraws : Draws :=
  { random20 := 3, random200 := 50, random2000 := 500, random5 := 2, float97 := 1 / 4,
    random500 := 100, float141 := 1 / 2, float142 := 1 / 2 }

/-- Random results used in the examples: the same draws for every call and container. -/
def sampleRnd : Nat → Nat → Draws := fun _ _ => sampleDraws

/-- Clock readings used in the examples. -/
def sampleNow : Nat → Int := fun n => 1000 + n

/-- The value `p50` of line 140 for a container and the draws of its iteration. -/
def p50Of (container : String) (d : Draws) : ℚ :=
  ((Int.tmod (ChecksumIEEE container : Nat) 1000 + d.random500 : Int) : ℚ)

/-- The value `p90` of line 141. -/
def p90Of (container : String) (d : Draws) : ℚ :=
  p50Of container d * (1.5 + d.float141)

/-- The value `p99` of line 142. -/
def p99Of (container : String) (d : Draws) : ℚ :=
  p90Of container d * (1.2 + d.float142)

/-- The histogram state of `name` right after the observation made for it by the loop
iteration of position `i` in call `n + 1`. -/
def histAt (containers : List String) (rnd : Nat → Nat → Draws) (name : String)
    (n i : Nat) : histogramState :=
  (observedUpTo containers rnd name n i).foldl observe newHistogramState

/-- The sixteen series of the block of one container, in the order of their `append`
statements, with the labels the returned request holds: `counter` is the new counter value
and `H` the histogram state after the observation of the iteration. -/
def blockSeries (container orgID : String) (now : Int) (d : Draws) (counter : ℚ)
    (H : histogramState) : List TimeSeries :=
  [ -- lines 69-80: gauges
    ⟨baseLabelsOf container orgID ++ [⟨"__name__", "cpu_usage"⟩],
      [⟨now, max ((Int.tmod (ChecksumIEEE container : Nat) 100 + (d.random20 - 10) : Int) : ℚ) 0⟩]⟩,
    ⟨baseLabelsOf container orgID ++ [⟨"__name__", "ram_usage"⟩],
      [⟨now,
        max ((Int.tmod (ChecksumIEEE container : Nat) 1000 + (d.random200 - 100) : Int) : ℚ) 0⟩]⟩,
    ⟨baseLabelsOf container orgID ++ [⟨"__name__", "network_usage"⟩],
      [⟨now,
        max ((Int.tmod (ChecksumIEEE container : Nat) 1000000 + (d.random2000 - 1000) : Int) : ℚ)
          0⟩]⟩,
    -- lines 85-88: counter
    ⟨baseLabelsOf container orgID ++ [⟨"__name__", "http_requests_total"⟩], [⟨now, counter⟩]⟩,
    -- lines 113-119: one series per bucket key, ascending
    ⟨histLabelsOf container orgID, [⟨now, bucketGet H.buckets bucket01⟩]⟩,
    ⟨histLabelsOf container orgID, [⟨now, bucketGet H.buckets 0.5⟩]⟩,
    ⟨histLabelsOf container orgID, [⟨now, bucketGet H.buckets 1⟩]⟩,
    ⟨histLabelsOf container orgID, [⟨now, bucketGet H.buckets 5⟩]⟩,
    -- lines 121-124: the `+Inf` bucket
    ⟨histLabelsOf container orgID, [⟨now, H.count⟩]⟩,
    -- lines 127-134: histogram `_sum` and `_count`
    ⟨histLabelsOf container orgID, [⟨now, H.sum⟩]⟩,
    ⟨histLabelsOf container orgID, [⟨now, H.count⟩]⟩,
    -- lines 145-156: the three quantiles
    ⟨quantileLabelsOf container orgID, [⟨now, p50Of container d⟩]⟩,
    ⟨quantileLabelsOf container orgID, [⟨now, p90Of container d⟩]⟩,
    ⟨quantileLabelsOf container orgID, [⟨now, p99Of container d⟩]⟩,
    -- lines 157-164: summary `_sum` and `_count`
    ⟨baseLabelsOf container orgID ++ [⟨"__name__", "response_size_bytes_sum"⟩],
      [⟨now, p99Of container d * 10⟩]⟩,
    ⟨baseLabelsOf container orgID ++ [⟨"__name__", "response_size_bytes_count"⟩], [⟨now, 100⟩]⟩ ]

/-- The block of the container at position `i` in a request: its sixteen consecutive series. -/
def blockAt (req : PromReq) (i : Nat) : List TimeSeries :=
  (req.drop (seriesPerContainer * i)).take seriesPerContainer

/-- Draws with `random(500) = 0`; the raw uniform values lie in `[0,1)`. -/
def zeroSizeDraws : Draws :=
  { random20 := 3, random200 := 50, random2000 := 500, random5 := 2, float97 := 1 / 4,
    random500 := 0, float141 := 1 / 2, float142 := 1 / 2 }

/-- The pieces of a payload between newline bytes, as `bytes.Split(payload, "\n")` returns
them. -/
def splitNewline (payload : List UInt8) : List GoString :=
  payload.splitOn 10

/-- Draws whose raw uniform value of line 97 is the `float64` nearest to `0.05`, half of the
constant `0.1`: the observed latency is the boundary `0.1` itself. -/
def tenthDraws : Draws :=
  { random20 := 3, random200 := 50, random2000 := 500, random5 := 2, float97 := bucket01 / 2,
    random500 := 100, float141 := 1 / 2, float142 := 1 / 2 }

/-- Draws whose raw uniform value of line 97 is `1/2 + 2^-53` in the first call and
`1/2 + 2^-52` in the later ones, both `float64` values in `[0,1)`. -/
def roundingRnd : Nat → Nat → Draws := fun n _ =>
  { random20 := 3, random200 := 50, random2000 := 500, random5 := 2,
    float97 := if n = 0 then 4503599627370497 / 9007199254740992
      else 2251799813685249 / 4503599627370496,
    random500 := 100, float141 := 1 / 2, float142 := 1 / 2 }

/-- The error kind of the specification (sections 4.5 and 7) for an empty candidate pool. -/
inductive ErrorKind where
  | InvalidArgument
deriving DecidableEq, Repr

/-- The outcome of a call of the plain-text `generate` when `l.pickRandom` may fail: the
request, or the failure that ended the call. -/
inductive Outcome where
  | request (req : PlainTextReq)
  | failure (e : ErrorKind)
deriving DecidableEq, Repr

/-- The loop of lines 41-43 with a helper that may fail: the helper returns a plain string
and the loop has no handler, so a failure of the helper ends the call. -/
def fillLinesE (pickRandom : Nat → List GoString → Except ErrorKind GoString)
    (Lines : List GoString) (n : Nat) : Nat → Nat → List GoString → Outcome
  | 0, _, lines => Outcome.request ⟨lines⟩
  | fuel + 1, i, lines =>
    if i < n then
      match pickRandom i Lines with
      | Except.error e => Outcome.failure e
      | Except.ok x => fillLinesE pickRandom Lines n fuel (i + 1) (lines.set i x)
    else Outcome.request ⟨lines⟩

/-- The closure `generate` of `NewPlainTextSender` with a helper that may fail; `none` stands
for the run-time panic of `make` on a negative length. -/
def NewPlainTextSender.generateE (LinesPS : Int) (Lines : List GoString)
    (pickRandom : Nat → List GoString → Except ErrorKind GoString) : Option Outcome :=
  if LinesPS < 0 then none
  else
    some (fillLinesE pickRandom Lines LinesPS.toNat LinesPS.toNat 0
      (List.replicate LinesPS.toNat []))

/-! # Theorems -/

/-! ## Slices and append -/

theorem goAppend_full (h : LabelHeap) (a n : Nat) (x : Label) :
    goAppend h ⟨a, n, n⟩ x =
      (h ++ [readSlice h ⟨a, n, n⟩ ++
          x :: List.replicate (nextslicecap (n + 1) n - (n + 1)) zeroLabel],
        ⟨h.length, n + 1, nextslicecap (n + 1) n⟩) := by
  simp [goAppend]

theorem nextslicecap_4_3 : nextslicecap (3 + 1) 3 = 6 := by decide

/-! ## Bucket keys -/

/-- The constant `0.1` as a fraction: `3602879701896397 / 2 ^ 55`. -/
theorem bucket01_val : bucket01 = 3602879701896397 / 36028797018963968 := by
  decide!

/-- The four boundaries print as `0.1`, `0.5`, `1`, `5`. -/
theorem sprintfV_boundaries :
    boundaries.map sprintfV = ["0.1", "0.5", "1", "5"] := by
  decide!

theorem boundaries_sorted : boundaries.Sorted (· ≤ ·) := by
  simp only [boundaries, bucket01_val, List.Sorted, List.pairwise_cons, List.mem_cons,
    List.mem_singleton]
  norm_num

theorem sorted_keys (keys : List ℚ) (h : keys.Perm boundaries) :
    keys.insertionSort (· ≤ ·) = boundaries :=
  List.eq_of_perm_of_sorted ((List.perm_insertionSort _ keys).trans h)
    (List.sorted_insertionSort _ keys) boundaries_sorted

theorem observe_keys (h : histogramState) (v : ℚ) :
    (observe h v).buckets.map Prod.fst = h.buckets.map Prod.fst := by
  simp only [observe, List.map_map]
  apply List.map_congr_left
  intro p _
  simp only [Function.comp]
  split <;> rfl

theorem histOf_keys (st : SenderState) (hst : StateOk st) (c : String) :
    ((histOf st c).buckets.map Prod.fst).Perm boundaries := by
  unfold histOf
  cases hc : st.histograms c with
  | none => exact List.Perm.refl _
  | some h => exact hst c h hc

theorem bucketKeys_observe (st : SenderState) (hst : StateOk st) (c : String) (v : ℚ) :
    bucketKeys (observe (histOf st c) v) = [bucket01, 0.5, 1, 5] := by
  unfold bucketKeys
  rw [observe_keys]
  exact sorted_keys _ (histOf_keys st hst c)

/-! ## One loop iteration -/

/-- The series one loop iteration appends, written out: labels as the caller of `generate`
reads them, and sample values in terms of the state before the iteration. -/
theorem generateBody_out (orgID : String) (now : Int) (c : String) (d : Draws)
    (st : SenderState) (hst : StateOk st) :
    (generateBody orgID now c d st).2 =
      [ ⟨baseLabelsOf c orgID ++ [⟨"__name__", "cpu_usage"⟩],
          [⟨now, max (((Int.tmod (ChecksumIEEE c : Nat) 100 + (d.random20 - 10) : Int)) : ℚ) 0⟩]⟩,
        ⟨baseLabelsOf c orgID ++ [⟨"__name__", "ram_usage"⟩],
          [⟨now, max (((Int.tmod (ChecksumIEEE c : Nat) 1000 + (d.random200 - 100) : Int)) : ℚ) 0⟩]⟩,
        ⟨baseLabelsOf c orgID ++ [⟨"__name__", "network_usage"⟩],
          [⟨now,
            max (((Int.tmod (ChecksumIEEE c : Nat) 1000000 + (d.random2000 - 1000) : Int)) : ℚ) 0⟩]⟩,
        ⟨baseLabelsOf c orgID ++ [⟨"__name__", "http_requests_total"⟩],
          [⟨now, (st.counters c).getD 0 + ((d.random5 + 1 : Int) : ℚ)⟩]⟩,
        ⟨histLabelsOf c orgID,
          [⟨now, bucketGet (observe (histOf st c) (observedLatency d)).buckets bucket01⟩]⟩,
        ⟨histLabelsOf c orgID,
          [⟨now, bucketGet (observe (histOf st c) (observedLatency d)).buckets 0.5⟩]⟩,
        ⟨histLabelsOf c orgID,
          [⟨now, bucketGet (observe (histOf st c) (observedLatency d)).buckets 1⟩]⟩,
        ⟨histLabelsOf c orgID,
          [⟨now, bucketGet (observe (histOf st c) (observedLatency d)).buckets 5⟩]⟩,
        ⟨histLabelsOf c orgID, [⟨now, (observe (histOf st c) (observedLatency d)).count⟩]⟩,
        ⟨histLabelsOf c orgID, [⟨now, (observe (histOf st c) (observedLatency d)).sum⟩]⟩,
        ⟨histLabelsOf c orgID, [⟨now, (observe (histOf st c) (observedLatency d)).count⟩]⟩,
        ⟨quantileLabelsOf c orgID,
          [⟨now, ((Int.tmod (ChecksumIEEE c : Nat) 1000 + d.random500 : Int) : ℚ)⟩]⟩,
        ⟨quantileLabelsOf c orgID,
          [⟨now, ((Int.tmod (ChecksumIEEE c : Nat) 1000 + d.random500 : Int) : ℚ)
            * (1.5 + d.float141)⟩]⟩,
        ⟨quantileLabelsOf c orgID,
          [⟨now, ((Int.tmod (ChecksumIEEE c : Nat) 1000 + d.random500 : Int) : ℚ)
            * (1.5 + d.float141) * (1.2 + d.float142)⟩]⟩,
        ⟨baseLabelsOf c orgID ++ [⟨"__name__", "response_size_bytes_sum"⟩],
          [⟨now, ((Int.tmod (ChecksumIEEE c : Nat) 1000 + d.random500 : Int) : ℚ)
            * (1.5 + d.float141) * (1.2 + d.float142) * 10⟩]⟩,
        ⟨baseLabelsOf c orgID ++ [⟨"__name__", "response_size_bytes_count"⟩], [⟨now, 100⟩]⟩ ] := by
  have hk := bucketKeys_observe st hst c (observedLatency d)
  have e1 : "request_latency_seconds" ++ "_sum" = "request_latency_seconds_sum" := by decide
  have e2 : "request_latency_seconds" ++ "_count" = "request_latency_seconds_count" := by decide
  have e3 : "response_size_bytes" ++ "_sum" = "response_size_bytes_sum" := by decide
  have e4 : "response_size_bytes" ++ "_count" = "response_size_bytes_count" := by decide
  simp only [generateBody]
  -- gauges and counter: every append to `baseLabels` allocates
  simp only [emit, emitGauges, startBuilder, baseLabels, goAppend_full, nextslicecap_4_3,
    readSlice]
  simp only [List.getD_cons_zero, List.take, List.nil_append, List.cons_append, List.replicate,
    List.length_append, List.length_cons, List.length_nil, List.getD_eq_getElem?_getD,
    Nat.reduceAdd, Nat.reduceSub]
  -- histogram family: the appends to `histLabels` write into its array
  simp only [emitHistogram, hk, baseLabels, goAppend_full, nextslicecap_4_3, readSlice, e1, e2]
  simp only [List.getD_cons_zero, List.take, List.nil_append, List.cons_append, List.replicate,
    List.length_append, List.length_cons, List.length_nil, List.getD_eq_getElem?_getD,
    Nat.reduceAdd, Nat.reduceSub]
  simp only [List.foldl_cons, List.foldl_nil, emit, goAppend, Nat.reduceLT, ↓reduceIte,
    Nat.reduceAdd]
  simp only [List.getD_eq_getElem?_getD, List.set_cons_succ, List.set_cons_zero,
    List.getElem?_cons_succ, List.getElem?_cons_zero, Option.getD_some, List.nil_append,
    List.cons_append]
  -- summary family
  simp only [emitSummary, baseLabels, goAppend_full, nextslicecap_4_3, readSlice, e3, e4]
  simp only [List.getD_cons_zero, List.take, List.nil_append, List.cons_append, List.replicate,
    List.length_append, List.length_cons, List.length_nil, List.getD_eq_getElem?_getD,
    Nat.reduceAdd, Nat.reduceSub]
  simp only [emit, goAppend, Nat.reduceLT, ↓reduceIte, Nat.reduceAdd, Nat.lt_irrefl,
    nextslicecap_4_3, readSlice]
  simp only [List.getD_eq_getElem?_getD, List.set_cons_succ, List.set_cons_zero,
    List.getElem?_cons_succ, List.getElem?_cons_zero, Option.getD_some, List.nil_append,
    List.cons_append, List.take, List.replicate, List.length_cons, List.length_nil,
    Nat.reduceAdd, Nat.reduceSub]
  -- reading the labels back
  simp only [finish, resolve, readSlice, List.map_cons, List.map_nil]
  simp only [List.getD_eq_getElem?_getD, List.set_cons_succ, List.set_cons_zero,
    List.getElem?_cons_succ, List.getElem?_cons_zero, Option.getD_some, List.nil_append,
    List.cons_append, List.take, List.replicate, List.length_cons, List.length_nil,
    Nat.reduceAdd, Nat.reduceSub]
  rfl

theorem generateBody_state (orgID : String) (now : Int) (c : String) (d : Draws)
    (st : SenderState) :
    (generateBody orgID now c d st).1 =
      { counters := mapSet st.counters c ((st.counters c).getD 0 + ((d.random5 + 1 : Int) : ℚ)),
        histograms := mapSet st.histograms c (observe (histOf st c) (observedLatency d)) } :=
  rfl

theorem generateBody_length (orgID : String) (now : Int) (c : String) (d : Draws)
    (st : SenderState) (hst : StateOk st) :
    (generateBody orgID now c d st).2.length = 16 := by
  rw [generateBody_out orgID now c d st hst]
  rfl

theorem generateBody_ok (orgID : String) (now : Int) (c : String) (d : Draws)
    (st : SenderState) (hst : StateOk st) : StateOk (generateBody orgID now c d st).1 := by
  intro k h hk
  rw [generateBody_state] at hk
  simp only [mapSet] at hk
  split at hk
  · cases hk
    rw [observe_keys]
    exact histOf_keys st hst c
  · exact hst k h hk

/-! ## The loop over the containers -/

theorem generateLoop_req (orgID : String) (now : Int) (rnd : Nat → Draws) (cs : List String) :
    ∀ (i : Nat) (st : SenderState) (req : PromReq),
      generateLoop orgID now rnd cs i st req =
        ((generateLoop orgID now rnd cs i st []).1,
          req ++ (generateLoop orgID now rnd cs i st []).2) := by
  induction cs with
  | nil => intro i st req; simp [generateLoop]
  | cons c cs ih =>
    intro i st req
    simp only [generateLoop]
    rw [ih (i + 1) _ (req ++ _), ih (i + 1) _ ([] ++ _)]
    simp

theorem generateLoop_ok (orgID : String) (now : Int) (rnd : Nat → Draws) (cs : List String) :
    ∀ (i : Nat) (st : SenderState) (req : PromReq), StateOk st →
      StateOk (generateLoop orgID now rnd cs i st req).1 := by
  induction cs with
  | nil => intro i st req h; exact h
  | cons c cs ih =>
    intro i st req h
    simp only [generateLoop]
    exact ih _ _ _ (generateBody_ok orgID now c (rnd i) st h)

theorem generateLoop_length (orgID : String) (now : Int) (rnd : Nat → Draws) (cs : List String) :
    ∀ (i : Nat) (st : SenderState) (req : PromReq), StateOk st →
      (generateLoop orgID now rnd cs i st req).2.length = req.length + 16 * cs.length := by
  induction cs with
  | nil => intro i st req _; simp [generateLoop]
  | cons c cs ih =>
    intro i st req h
    simp only [generateLoop]
    rw [ih _ _ _ (generateBody_ok orgID now c (rnd i) st h), List.length_append,
      generateBody_length orgID now c (rnd i) st h, List.length_cons]
    ring

/-- The state a loop over `cs` leaves for a name that is not in `cs` is the one it found. -/
theorem generateLoop_frame (orgID : String) (now : Int) (rnd : Nat → Draws) (name : String)
    (cs : List String) :
    ∀ (i : Nat) (st : SenderState) (req : PromReq), name ∉ cs →
      (generateLoop orgID now rnd cs i st req).1.counters name = st.counters name ∧
      (generateLoop orgID now rnd cs i st req).1.histograms name = st.histograms name := by
  induction cs with
  | nil => intro i st req _; exact ⟨rfl, rfl⟩
  | cons c cs ih =>
    intro i st req h
    simp only [List.mem_cons, not_or] at h
    simp only [generateLoop]
    obtain ⟨h1, h2⟩ := ih (i + 1) (generateBody orgID now c (rnd i) st).1
      (req ++ (generateBody orgID now c (rnd i) st).2) h.2
    rw [h1, h2, generateBody_state]
    simp [mapSet, h.1]

/-- The series of one loop iteration depend on the state only through the entries of the
container. -/
theorem generateBody_congr (orgID : String) (now : Int) (c : String) (d : Draws)
    (st st2 : SenderState) (h1 : st2.counters c = st.counters c)
    (h2 : st2.histograms c = st.histograms c) :
    (generateBody orgID now c d st2).2 = (generateBody orgID now c d st).2 := by
  simp only [generateBody, histOf, h1, h2]

/-- The block of the container at position `k`: it is what one loop iteration appends, run
on the state the loop has reached after the first `k` containers. -/
theorem generateLoop_block (orgID : String) (now : Int) (rnd : Nat → Draws) (cs : List String) :
    ∀ (i : Nat) (st : SenderState) (req : PromReq) (k : Nat) (hk : k < cs.length),
      StateOk st → ∀ j, j < 16 →
        (generateLoop orgID now rnd cs i st req).2[req.length + 16 * k + j]? =
          (generateBody orgID now cs[k] (rnd (i + k))
            (generateLoop orgID now rnd (cs.take k) i st []).1).2[j]? := by
  induction cs with
  | nil => intro i st req k hk; simp at hk
  | cons c cs ih =>
    intro i st req k hk hst j hj
    have hl := generateBody_length orgID now c (rnd i) st hst
    cases k with
    | zero =>
      simp only [generateLoop, List.take_zero]
      rw [generateLoop_req]
      simp only [Nat.mul_zero, Nat.add_zero, List.getElem_cons_zero]
      rw [List.getElem?_append_left (by simp [hl]; omega),
        List.getElem?_append_right (by omega)]
      simp
    | succ k =>
      have hk2 : k < cs.length := by simpa using hk
      have hst1 := generateBody_ok orgID now c (rnd i) st hst
      have := ih (i + 1) (generateBody orgID now c (rnd i) st).1
        (req ++ (generateBody orgID now c (rnd i) st).2) k hk2 hst1 j hj
      simp only [generateLoop, List.getElem_cons_succ, List.take_succ_cons]
      rw [List.length_append, hl] at this
      rw [show req.length + 16 * (k + 1) + j = req.length + 16 + 16 * k + j by ring,
        show i + (k + 1) = i + 1 + k by ring, this,
        generateLoop_req orgID now rnd (cs.take k) (i + 1) _ ([] ++ _)]

theorem not_mem_take_of_nodup (cs : List String) (hnd : cs.Nodup) (k : Nat) (hk : k < cs.length) :
    cs[k] ∉ cs.take k := by
  induction cs generalizing k with
  | nil => simp at hk
  | cons c cs ih =>
    cases k with
    | zero => simp
    | succ k =>
      have hk2 : k < cs.length := by simpa using hk
      simp only [List.nodup_cons] at hnd
      simp only [List.getElem_cons_succ, List.take_succ_cons, List.mem_cons, not_or]
      refine ⟨?_, ih hnd.2 k hk2⟩
      intro h
      exact hnd.1 (h ▸ List.getElem_mem hk2)

/-- With pairwise distinct names, the loop leaves for the container at position `k` the state
its own iteration computes from the initial entries. -/
theorem generateLoop_state_at (orgID : String) (now : Int) (rnd : Nat → Draws)
    (cs : List String) :
    ∀ (i : Nat) (st : SenderState) (req : PromReq) (k : Nat) (hk : k < cs.length), cs.Nodup →
      (generateLoop orgID now rnd cs i st req).1.counters cs[k] =
        some ((st.counters cs[k]).getD 0 + (((rnd (i + k)).random5 + 1 : Int) : ℚ)) ∧
      (generateLoop orgID now rnd cs i st req).1.histograms cs[k] =
        some (observe (histOf st cs[k]) (observedLatency (rnd (i + k)))) := by
  induction cs with
  | nil => intro i st req k hk; simp at hk
  | cons c cs ih =>
    intro i st req k hk hnd
    simp only [List.nodup_cons] at hnd
    cases k with
    | zero =>
      simp only [generateLoop, List.getElem_cons_zero, Nat.add_zero]
      obtain ⟨h1, h2⟩ := generateLoop_frame orgID now rnd c cs (i + 1)
        (generateBody orgID now c (rnd i) st).1
        (req ++ (generateBody orgID now c (rnd i) st).2) hnd.1
      rw [h1, h2, generateBody_state]
      simp [mapSet]
    | succ k =>
      have hk2 : k < cs.length := by simpa using hk
      have hne : cs[k] ≠ c := fun h => hnd.1 (h ▸ List.getElem_mem hk2)
      simp only [generateLoop, List.getElem_cons_succ]
      obtain ⟨h1, h2⟩ := ih (i + 1) (generateBody orgID now c (rnd i) st).1
        (req ++ (generateBody orgID now c (rnd i) st).2) k hk2 hnd.2
      rw [h1, h2, generateBody_state, show i + (k + 1) = i + 1 + k by ring]
      simp [mapSet, hne, histOf]

/-! ## Consecutive cycles -/

theorem initState_ok : StateOk initState := by
  intro c h hc
  simp [initState] at hc

theorem stateAfter_ok (containers : List String) (orgID : String) (now : Nat → Int)
    (rnd : Nat → Nat → Draws) (n : Nat) : StateOk (stateAfter containers orgID now rnd n) := by
  induction n with
  | zero => exact initState_ok
  | succ n ih => exact generateLoop_ok orgID (now n) (rnd n) containers 0 _ [] ih

theorem generate_length (containers : List String) (orgID : String) (now : Int)
    (rnd : Nat → Draws) (st : SenderState) (hst : StateOk st) :
    (NewMetricSender.generate containers orgID now rnd st).2.length = 16 * containers.length := by
  simp [NewMetricSender.generate, generateLoop_length orgID now rnd containers 0 st [] hst]

/-- The state the loop of a call has reached when it comes to the container at position
`i`. -/
theorem generate_block (containers : List String) (orgID : String) (now : Int)
    (rnd : Nat → Draws) (st : SenderState) (hst : StateOk st) (i : Nat)
    (hi : i < containers.length) (j : Nat) (hj : j < 16) :
    seriesAt (NewMetricSender.generate containers orgID now rnd st).2 i j =
      (generateBody orgID now containers[i] (rnd i)
        (generateLoop orgID now rnd (containers.take i) 0 st []).1).2[j]? := by
  have := generateLoop_block orgID now rnd containers 0 st [] i hi hst j hj
  simp only [List.length_nil, Nat.zero_add] at this
  simpa [seriesAt, seriesPerContainer, NewMetricSender.generate] using this

/-- With pairwise distinct names, the block of container `i` is one loop iteration run on the
state the call started from. -/
theorem generate_block_nodup (containers : List String) (orgID : String) (now : Int)
    (rnd : Nat → Draws) (st : SenderState) (hst : StateOk st) (hnd : containers.Nodup) (i : Nat)
    (hi : i < containers.length) (j : Nat) (hj : j < 16) :
    seriesAt (NewMetricSender.generate containers orgID now rnd st).2 i j =
      (generateBody orgID now containers[i] (rnd i) st).2[j]? := by
  rw [generate_block containers orgID now rnd st hst i hi j hj]
  obtain ⟨e1, e2⟩ := generateLoop_frame orgID now rnd containers[i] (containers.take i) 0 st []
    (not_mem_take_of_nodup containers hnd i hi)
  rw [generateBody_congr orgID now containers[i] (rnd i) st _ e1 e2]

theorem stateAfter_succ_at (containers : List String) (orgID : String) (now : Nat → Int)
    (rnd : Nat → Nat → Draws) (hnd : containers.Nodup) (i : Nat) (hi : i < containers.length)
    (n : Nat) :
    (stateAfter containers orgID now rnd (n + 1)).counters containers[i] =
        some (((stateAfter containers orgID now rnd n).counters containers[i]).getD 0
          + ((delta rnd n i : Int) : ℚ)) ∧
    (stateAfter containers orgID now rnd (n + 1)).histograms containers[i] =
        some (observe (histOf (stateAfter containers orgID now rnd n) containers[i])
          (observedLatency (rnd n i))) := by
  have := generateLoop_state_at orgID (now n) (rnd n) containers 0
    (stateAfter containers orgID now rnd n) [] i hi hnd
  simpa [stateAfter, NewMetricSender.generate, delta] using this

/-! ## Histogram states as folds of observations -/

theorem bucketGet_map_observe (v le : ℚ) (bs : List (ℚ × Nat)) (hle : le ∈ bs.map Prod.fst) :
    bucketGet (bs.map (fun p => if v ≤ p.1 then (p.1, p.2 + 1) else p)) le =
      bucketGet bs le + (if v ≤ le then 1 else 0) := by
  induction bs with
  | nil => simp at hle
  | cons p bs ih =>
    by_cases hp : p.1 = le
    · subst hp
      by_cases hv : v ≤ p.1 <;> simp [bucketGet, hv]
    · have hmem : le ∈ bs.map Prod.fst := by
        simp only [List.map_cons, List.mem_cons] at hle
        rcases hle with h | h
        · exact absurd h.symm hp
        · exact h
      have := ih hmem
      by_cases hv : v ≤ p.1
      · simpa [bucketGet, hv, hp] using this
      · simpa [bucketGet, hv, hp] using this

theorem bucketGet_observe (h : histogramState) (v le : ℚ) (hle : le ∈ h.buckets.map Prod.fst) :
    bucketGet (observe h v).buckets le = bucketGet h.buckets le + (if v ≤ le then 1 else 0) :=
  bucketGet_map_observe v le h.buckets hle

theorem foldl_observe_keys (obs : List ℚ) :
    ∀ h : histogramState,
      (obs.foldl observe h).buckets.map Prod.fst = h.buckets.map Prod.fst := by
  induction obs with
  | nil => intro h; rfl
  | cons v obs ih => intro h; rw [List.foldl_cons, ih, observe_keys]

theorem foldl_observe_count (obs : List ℚ) :
    ∀ h : histogramState, (obs.foldl observe h).count = h.count + obs.length := by
  induction obs with
  | nil => intro h; rfl
  | cons v obs ih =>
    intro h
    rw [List.foldl_cons, ih, List.length_cons]
    simp only [observe]
    omega

theorem foldl_observe_bucket (le : ℚ) (obs : List ℚ) :
    ∀ h : histogramState, le ∈ h.buckets.map Prod.fst →
      bucketGet (obs.foldl observe h).buckets le =
        bucketGet h.buckets le + obs.countP (fun v => decide (v ≤ le)) := by
  induction obs with
  | nil => intro h _; rfl
  | cons v obs ih =>
    intro h hle
    rw [List.foldl_cons, ih (observe h v) (by rw [observe_keys]; exact hle),
      bucketGet_observe h v le hle, List.countP_cons]
    by_cases hv : v ≤ le
    · simp [hv]; omega
    · simp [hv]

/-- What the loop does to the histogram state of `name`: one observation for every occurrence
of `name` among the containers. -/
theorem generateLoop_hist (orgID : String) (now : Int) (rnd : Nat → Draws) (name : String)
    (cs : List String) :
    ∀ (i : Nat) (st : SenderState) (req : PromReq),
      histOf (generateLoop orgID now rnd cs i st req).1 name =
        (cycleObservations name rnd cs i).foldl observe (histOf st name) := by
  induction cs with
  | nil => intro i st req; rfl
  | cons c cs ih =>
    intro i st req
    simp only [generateLoop, cycleObservations]
    rw [ih, List.foldl_append, generateBody_state]
    by_cases hc : c = name
    · subst hc
      simp [histOf, mapSet]
    · have hc2 : ¬ name = c := fun h => hc h.symm
      simp [histOf, mapSet, hc, hc2]

theorem stateAfter_hist (containers : List String) (orgID : String) (now : Nat → Int)
    (rnd : Nat → Nat → Draws) (name : String) (n : Nat) :
    histOf (stateAfter containers orgID now rnd n) name =
      (observations containers rnd name n).foldl observe newHistogramState := by
  induction n with
  | zero => rfl
  | succ n ih =>
    simp only [stateAfter, NewMetricSender.generate, observations]
    rw [generateLoop_hist, ih, List.foldl_append]

theorem mem_boundaries_new (le : ℚ) (hle : le ∈ boundaries) :
    le ∈ newHistogramState.buckets.map Prod.fst := by
  simpa [newHistogramState, boundaries] using hle

theorem bucketGet_new (le : ℚ) (hle : le ∈ boundaries) :
    bucketGet newHistogramState.buckets le = 0 := by
  simp only [boundaries, List.mem_cons, List.mem_singleton, List.not_mem_nil, or_false] at hle
  rcases hle with h | h | h | h <;> subst h <;>
    norm_num [bucketGet, newHistogramState, bucket01_val]

/-! ## The counter `http_requests_total` -/

theorem counter_value (containers : List String) (orgID : String) (now : Nat → Int)
    (rnd : Nat → Nat → Draws) (hnd : containers.Nodup) (i : Nat) (hi : i < containers.length)
    (n : Nat) :
    ((stateAfter containers orgID now rnd n).counters containers[i]).getD 0 =
      Finset.sum (Finset.range n) (fun k => ((delta rnd k i : Int) : ℚ)) := by
  induction n with
  | zero => simp [stateAfter, initState]
  | succ n ih =>
    rw [(stateAfter_succ_at containers orgID now rnd hnd i hi n).1, Option.getD_some, ih,
      Finset.sum_range_succ]

theorem counter_series (containers : List String) (orgID : String) (now : Nat → Int)
    (rnd : Nat → Nat → Draws) (hnd : containers.Nodup) (i : Nat) (hi : i < containers.length)
    (n : Nat) :
    seriesAt (batch containers orgID now rnd n) i 3 =
      some ⟨baseLabelsOf containers[i] orgID ++ [⟨"__name__", "http_requests_total"⟩],
        [⟨now n, Finset.sum (Finset.range (n + 1)) (fun k => ((delta rnd k i : Int) : ℚ))⟩]⟩ := by
  have hst := stateAfter_ok containers orgID now rnd n
  unfold batch
  rw [generate_block_nodup containers orgID (now n) (rnd n) _ hst hnd i hi 3 (by decide),
    generateBody_out orgID (now n) containers[i] (rnd n i) _ hst,
    counter_value containers orgID now rnd hnd i hi n, Finset.sum_range_succ]
  rfl

/-- C1: with pairwise distinct container names and every `random(5)` result in `[0,5)`, the
`http_requests_total` series of a container (offset 3 of its block) carries in call `n + 1`
the value `0` plus the sum of the `n + 1` deltas applied so far, every delta lies in `1..5`,
and the value of a call is the value of the previous call plus the delta of the call, hence
not smaller. -/
theorem counter_cumulative (containers : List String) (orgID : String) (now : Nat → Int)
    (rnd : Nat → Nat → Draws) (hnd : containers.Nodup)
    (hr : ∀ n i, 0 ≤ (rnd n i).random5 ∧ (rnd n i).random5 < 5)
    (i : Nat) (hi : i < containers.length) :
    (∀ n, 1 ≤ delta rnd n i ∧ delta rnd n i ≤ 5) ∧
    (∀ n, seriesAt (batch containers orgID now rnd n) i 3 =
      some ⟨baseLabelsOf containers[i] orgID ++ [⟨"__name__", "http_requests_total"⟩],
        [⟨now n, 0 + Finset.sum (Finset.range (n + 1)) (fun k => ((delta rnd k i : Int) : ℚ))⟩]⟩) ∧
    (∀ n, ∃ v w : ℚ,
      valuesAt (batch containers orgID now rnd n) i 3 = some [v] ∧
      valuesAt (batch containers orgID now rnd (n + 1)) i 3 = some [w] ∧
      w = v + ((delta rnd (n + 1) i : Int) : ℚ) ∧ v ≤ w) := by
  have hd : ∀ n, 1 ≤ delta rnd n i ∧ delta rnd n i ≤ 5 := by
    intro n
    have := hr n i
    unfold delta
    omega
  refine ⟨hd, ?_, ?_⟩
  · intro n
    rw [counter_series containers orgID now rnd hnd i hi n, zero_add]
  · intro n
    refine ⟨Finset.sum (Finset.range (n + 1)) (fun k => ((delta rnd k i : Int) : ℚ)),
      Finset.sum (Finset.range (n + 1 + 1)) (fun k => ((delta rnd k i : Int) : ℚ)),
      ?_, ?_, Finset.sum_range_succ _ (n + 1), ?_⟩
    · simp only [valuesAt, counter_series containers orgID now rnd hnd i hi n]
      rfl
    · simp only [valuesAt, counter_series containers orgID now rnd hnd i hi (n + 1)]
      rfl
    · rw [Finset.sum_range_succ _ (n + 1)]
      have : (0 : ℚ) ≤ ((delta rnd (n + 1) i : Int) : ℚ) := by
        have := (hd (n + 1)).1
        exact_mod_cast (by omega : (0 : Int) ≤ delta rnd (n + 1) i)
      linarith

/-- An instance of the counter theorem: second of two containers, draws `sampleRnd`. -/
theorem counter_cumulative_witness :
    ["a", "b"].Nodup ∧
    (∀ n i, 0 ≤ (sampleRnd n i).random5 ∧ (sampleRnd n i).random5 < 5) ∧
    (1 : Nat) < ["a", "b"].length ∧
    ((∀ n, 1 ≤ delta sampleRnd n 1 ∧ delta sampleRnd n 1 ≤ 5) ∧
    (∀ n, seriesAt (batch ["a", "b"] "t" sampleNow sampleRnd n) 1 3 =
      some ⟨baseLabelsOf "b" "t" ++ [⟨"__name__", "http_requests_total"⟩],
        [⟨sampleNow n,
          0 + Finset.sum (Finset.range (n + 1)) (fun k => ((delta sampleRnd k 1 : Int) : ℚ))⟩]⟩) ∧
    (∀ n, ∃ v w : ℚ,
      valuesAt (batch ["a", "b"] "t" sampleNow sampleRnd n) 1 3 = some [v] ∧
      valuesAt (batch ["a", "b"] "t" sampleNow sampleRnd (n + 1)) 1 3 = some [w] ∧
      w = v + ((delta sampleRnd (n + 1) 1 : Int) : ℚ) ∧ v ≤ w)) :=
  ⟨by decide, fun _ _ => (by decide : (0 : Int) ≤ 2 ∧ (2 : Int) < 5), by decide,
    counter_cumulative ["a", "b"] "t" sampleNow sampleRnd (by decide) (fun _ _ => (by decide : (0 : Int) ≤ 2 ∧ (2 : Int) < 5)) 1
      (by decide)⟩

/-! ## The histogram `request_latency_seconds` -/

theorem countP_le_mono (obs : List ℚ) (b1 b2 : ℚ) (h : b1 ≤ b2) :
    obs.countP (fun v => decide (v ≤ b1)) ≤ obs.countP (fun v => decide (v ≤ b2)) := by
  apply List.countP_mono_left
  intro v _ hv
  simp only [decide_eq_true_eq] at hv ⊢
  exact le_trans hv h

/-- The histogram state reached by a sequence of observations: tallies as counts. -/
theorem foldl_observe_new (obs : List ℚ) :
    ((obs.foldl observe newHistogramState).count = obs.length) ∧
    ∀ le ∈ boundaries, bucketGet (obs.foldl observe newHistogramState).buckets le =
      obs.countP (fun v => decide (v ≤ le)) := by
  refine ⟨?_, ?_⟩
  · rw [foldl_observe_count]
    simp [newHistogramState]
  · intro le hle
    rw [foldl_observe_bucket le obs _ (mem_boundaries_new le hle), bucketGet_new le hle,
      Nat.zero_add]

theorem cycleObservations_concat (name : String) (rnd : Nat → Draws) (c : String)
    (cs : List String) :
    ∀ i, cycleObservations name rnd (cs ++ [c]) i =
      cycleObservations name rnd cs i ++
        (if c = name then [observedLatency (rnd (i + cs.length))] else []) := by
  induction cs with
  | nil => intro i; simp [cycleObservations]
  | cons d cs ih =>
    intro i
    have e : i + 1 + cs.length = i + (cs.length + 1) := by ring
    have h := ih (i + 1)
    rw [e] at h
    show (if d = name then [observedLatency (rnd i)] else []) ++
        cycleObservations name rnd (cs ++ [c]) (i + 1) = _
    rw [h]
    simp only [cycleObservations, List.length_cons, List.append_assoc]

theorem observedUpTo_eq (containers : List String) (rnd : Nat → Nat → Draws) (n i : Nat)
    (hi : i < containers.length) :
    observedUpTo containers rnd containers[i] n i =
      (observations containers rnd containers[i] n ++
        cycleObservations containers[i] (rnd n) (containers.take i) 0) ++
          [observedLatency (rnd n i)] := by
  unfold observedUpTo
  rw [← List.take_concat_get containers i hi, List.concat_eq_append, cycleObservations_concat]
  simp [List.length_take, Nat.min_eq_left (Nat.le_of_lt hi)]

/-- The series of the histogram family in the block of container `i`, in terms of the
observations recorded for the container when they are emitted. -/
theorem histogram_series (containers : List String) (orgID : String) (now : Nat → Int)
    (rnd : Nat → Nat → Draws) (n i : Nat) (hi : i < containers.length) :
    (∀ j, j < 4 → seriesAt (batch containers orgID now rnd n) i (4 + j) =
      some ⟨histLabelsOf containers[i] orgID,
        [⟨now n, ((observedUpTo containers rnd containers[i] n i).countP
          (fun v => decide (v ≤ boundaries.getD j 0)) : Nat)⟩]⟩) ∧
    seriesAt (batch containers orgID now rnd n) i 8 =
      some ⟨histLabelsOf containers[i] orgID,
        [⟨now n, ((observedUpTo containers rnd containers[i] n i).length : Nat)⟩]⟩ ∧
    seriesAt (batch containers orgID now rnd n) i 10 =
      some ⟨histLabelsOf containers[i] orgID,
        [⟨now n, ((observedUpTo containers rnd containers[i] n i).length : Nat)⟩]⟩ := by
  have hst := stateAfter_ok containers orgID now rnd n
  have hmid := generateLoop_ok orgID (now n) (rnd n) (containers.take i) 0 _ [] hst
  have hfold := generateLoop_hist orgID (now n) (rnd n) containers[i] (containers.take i) 0
    (stateAfter containers orgID now rnd n) []
  rw [stateAfter_hist, ← List.foldl_append] at hfold
  rw [observedUpTo_eq containers rnd n i hi]
  have e : observe (List.foldl observe newHistogramState
      (observations containers rnd containers[i] n ++
        cycleObservations containers[i] (rnd n) (containers.take i) 0))
      (observedLatency (rnd n i)) =
      List.foldl observe newHistogramState ((observations containers rnd containers[i] n ++
        cycleObservations containers[i] (rnd n) (containers.take i) 0) ++
          [observedLatency (rnd n i)]) := by
    simp only [List.foldl_append, List.foldl_cons, List.foldl_nil]
  refine ⟨?_, ?_, ?_⟩
  · intro j hj
    obtain ⟨_, hb⟩ := foldl_observe_new ((observations containers rnd containers[i] n ++
      cycleObservations containers[i] (rnd n) (containers.take i) 0) ++
        [observedLatency (rnd n i)])
    have h1 := hb bucket01 (by simp [boundaries])
    have h2 := hb 0.5 (by simp [boundaries])
    have h3 := hb 1 (by simp [boundaries])
    have h4 := hb 5 (by simp [boundaries])
    unfold batch
    rw [generate_block containers orgID (now n) (rnd n) _ hst i hi (4 + j) (by omega),
      generateBody_out orgID (now n) containers[i] (rnd n i) _ hmid, hfold, e, h1, h2, h3, h4]
    interval_cases j <;> rfl
  · obtain ⟨hc, _⟩ := foldl_observe_new ((observations containers rnd containers[i] n ++
      cycleObservations containers[i] (rnd n) (containers.take i) 0) ++
        [observedLatency (rnd n i)])
    unfold batch
    rw [generate_block containers orgID (now n) (rnd n) _ hst i hi 8 (by omega),
      generateBody_out orgID (now n) containers[i] (rnd n i) _ hmid, hfold, e, hc]
    rfl
  · obtain ⟨hc, _⟩ := foldl_observe_new ((observations containers rnd containers[i] n ++
      cycleObservations containers[i] (rnd n) (containers.take i) 0) ++
        [observedLatency (rnd n i)])
    unfold batch
    rw [generate_block containers orgID (now n) (rnd n) _ hst i hi 10 (by omega),
      generateBody_out orgID (now n) containers[i] (rnd n i) _ hmid, hfold, e, hc]
    rfl

theorem generateLoop_hist_some (orgID : String) (now : Int) (rnd : Nat → Draws) (name : String)
    (cs : List String) :
    ∀ (i : Nat) (st : SenderState) (req : PromReq),
      (st.histograms name).isSome ∨ name ∈ cs →
        ((generateLoop orgID now rnd cs i st req).1.histograms name).isSome := by
  induction cs with
  | nil =>
    intro i st req h
    rcases h with h | h
    · exact h
    · simp at h
  | cons c cs ih =>
    intro i st req h
    simp only [generateLoop]
    apply ih
    rw [generateBody_state]
    by_cases hc : name = c
    · left; simp [mapSet, hc]
    · rcases h with h | h
      · left; simpa [mapSet, hc] using h
      · right
        simpa [hc] using h

theorem stateAfter_hist_some (containers : List String) (orgID : String) (now : Nat → Int)
    (rnd : Nat → Nat → Draws) (name : String) (hm : name ∈ containers) (n : Nat) :
    (stateAfter containers orgID now rnd (n + 1)).histograms name =
      some (histOf (stateAfter containers orgID now rnd (n + 1)) name) := by
  have := generateLoop_hist_some orgID (now n) (rnd n) name containers 0
    (stateAfter containers orgID now rnd n) [] (Or.inr hm)
  have h2 : ((stateAfter containers orgID now rnd (n + 1)).histograms name).isSome := this
  obtain ⟨h, hh⟩ := Option.isSome_iff_exists.mp h2
  simp [histOf, hh]

theorem histOf_keys_eq (containers : List String) (orgID : String) (now : Nat → Int)
    (rnd : Nat → Nat → Draws) (name : String) (n : Nat) :
    (histOf (stateAfter containers orgID now rnd n) name).buckets.map Prod.fst = boundaries := by
  rw [stateAfter_hist, foldl_observe_keys]
  rfl

/-- C2: after every call, for the container at any position `i` the histogram state exists
and for any two of its boundaries `b1 < b2` the tallies satisfy
`buckets[b1] ≤ buckets[b2] ≤ count`; the series emitted for `+Inf` (offset 8 of the block)
and the `_count` series (offset 10) carry the same value, the number of observations recorded
for the container when they are emitted. -/
theorem histogram_cumulative (containers : List String) (orgID : String) (now : Nat → Int)
    (rnd : Nat → Nat → Draws) (n i : Nat) (hi : i < containers.length) (b1 b2 : ℚ)
    (hb1 : b1 ∈ (histOf (stateAfter containers orgID now rnd (n + 1))
      containers[i]).buckets.map Prod.fst)
    (hb2 : b2 ∈ (histOf (stateAfter containers orgID now rnd (n + 1))
      containers[i]).buckets.map Prod.fst)
    (hlt : b1 < b2) :
    (stateAfter containers orgID now rnd (n + 1)).histograms containers[i] =
      some (histOf (stateAfter containers orgID now rnd (n + 1)) containers[i]) ∧
    bucketGet (histOf (stateAfter containers orgID now rnd (n + 1)) containers[i]).buckets b1 ≤
      bucketGet (histOf (stateAfter containers orgID now rnd (n + 1)) containers[i]).buckets b2 ∧
    bucketGet (histOf (stateAfter containers orgID now rnd (n + 1)) containers[i]).buckets b2 ≤
      (histOf (stateAfter containers orgID now rnd (n + 1)) containers[i]).count ∧
    seriesAt (batch containers orgID now rnd n) i 8 =
      some ⟨histLabelsOf containers[i] orgID,
        [⟨now n, ((observedUpTo containers rnd containers[i] n i).length : Nat)⟩]⟩ ∧
    seriesAt (batch containers orgID now rnd n) i 10 =
      some ⟨histLabelsOf containers[i] orgID,
        [⟨now n, ((observedUpTo containers rnd containers[i] n i).length : Nat)⟩]⟩ := by
  rw [histOf_keys_eq] at hb1 hb2
  obtain ⟨hc, hb⟩ := foldl_observe_new (observations containers rnd containers[i] (n + 1))
  obtain ⟨_, h8, h10⟩ := histogram_series containers orgID now rnd n i hi
  refine ⟨stateAfter_hist_some containers orgID now rnd containers[i] (List.getElem_mem hi) n,
    ?_, ?_, h8, h10⟩
  · rw [stateAfter_hist, hb b1 hb1, hb b2 hb2]
    exact countP_le_mono _ b1 b2 (le_of_lt hlt)
  · rw [stateAfter_hist, hb b2 hb2, hc]
    exact List.countP_le_length _

/-- An instance of the cumulative-histogram theorem: one container, third call, boundaries
`0.1 < 0.5`. -/
theorem histogram_cumulative_witness :
    (0 : Nat) < ["a"].length ∧
    bucket01 ∈ (histOf (stateAfter ["a"] "t" sampleNow sampleRnd (2 + 1)) "a").buckets.map
      Prod.fst ∧
    (0.5 : ℚ) ∈ (histOf (stateAfter ["a"] "t" sampleNow sampleRnd (2 + 1)) "a").buckets.map
      Prod.fst ∧
    (bucket01 < 0.5) ∧
    ((stateAfter ["a"] "t" sampleNow sampleRnd (2 + 1)).histograms "a" =
      some (histOf (stateAfter ["a"] "t" sampleNow sampleRnd (2 + 1)) "a") ∧
    bucketGet (histOf (stateAfter ["a"] "t" sampleNow sampleRnd (2 + 1)) "a").buckets bucket01 ≤
      bucketGet (histOf (stateAfter ["a"] "t" sampleNow sampleRnd (2 + 1)) "a").buckets 0.5 ∧
    bucketGet (histOf (stateAfter ["a"] "t" sampleNow sampleRnd (2 + 1)) "a").buckets 0.5 ≤
      (histOf (stateAfter ["a"] "t" sampleNow sampleRnd (2 + 1)) "a").count ∧
    seriesAt (batch ["a"] "t" sampleNow sampleRnd 2) 0 8 =
      some ⟨histLabelsOf "a" "t",
        [⟨sampleNow 2, ((observedUpTo ["a"] sampleRnd "a" 2 0).length : Nat)⟩]⟩ ∧
    seriesAt (batch ["a"] "t" sampleNow sampleRnd 2) 0 10 =
      some ⟨histLabelsOf "a" "t",
        [⟨sampleNow 2, ((observedUpTo ["a"] sampleRnd "a" 2 0).length : Nat)⟩]⟩) :=
  ⟨by decide, by decide!, by decide!, by decide!,
    histogram_cumulative ["a"] "t" sampleNow sampleRnd 2 0 (by decide) bucket01 0.5
      (by decide!) (by decide!) (by decide!)⟩

/-- C5: whenever the sender holds a histogram state for a name, the tally stored for a
boundary `le` of `0.1, 0.5, 1, 5` (the keys of the bucket map, `0.1` being the `float64`
constant of line 93) is the number of latencies `v ≤ le` among those observed for that name
since the sender was created. -/
theorem bucket_counts_observations (containers : List String) (orgID : String)
    (now : Nat → Int) (rnd : Nat → Nat → Draws) (n : Nat) (name : String) (h : histogramState)
    (hh : (stateAfter containers orgID now rnd n).histograms name = some h) (le : ℚ)
    (hle : le ∈ boundaries) :
    bucketGet h.buckets le =
      (observations containers rnd name n).countP (fun v => decide (v ≤ le)) := by
  have e : h = histOf (stateAfter containers orgID now rnd n) name := by simp [histOf, hh]
  rw [e, stateAfter_hist]
  exact (foldl_observe_new _).2 le hle

/-- An instance of the bucket-count theorem: one container after one call in which the raw
uniform value is the `float64` nearest to `0.05`; the latency is the boundary `0.1` itself
and all four buckets count it. -/
theorem bucket_counts_observations_witness :
    (stateAfter ["a"] "t" sampleNow (fun _ _ => tenthDraws) 1).histograms "a" =
      some ⟨[(bucket01, 1), (0.5, 1), (1, 1), (5, 1)], bucket01, 1⟩ ∧
    bucket01 ∈ boundaries ∧
    observations ["a"] (fun _ _ => tenthDraws) "a" 1 = [bucket01] ∧
    bucketGet [(bucket01, 1), ((0.5 : ℚ), 1), (1, 1), (5, 1)] bucket01 =
      (observations ["a"] (fun _ _ => tenthDraws) "a" 1).countP (fun v => decide (v ≤ bucket01)) :=
  ⟨by decide!, by decide!, by decide!,
    bucket_counts_observations ["a"] "t" sampleNow (fun _ _ => tenthDraws) 1 "a"
      ⟨[(bucket01, 1), (0.5, 1), (1, 1), (5, 1)], bucket01, 1⟩ (by decide!) bucket01 (by decide!)⟩

theorem hist_count_nodup (containers : List String) (orgID : String) (now : Nat → Int)
    (rnd : Nat → Nat → Draws) (hnd : containers.Nodup) (i : Nat) (hi : i < containers.length)
    (n : Nat) : (histOf (stateAfter containers orgID now rnd n) containers[i]).count = n := by
  induction n with
  | zero => rfl
  | succ n ih =>
    unfold histOf
    rw [(stateAfter_succ_at containers orgID now rnd hnd i hi n).2, Option.getD_some]
    simp only [observe, ih]

/-- C6: with pairwise distinct container names, the `request_latency_seconds_count` series of
a container (offset 10 of its block) carries in call `N`, for every `N ≥ 1`, the value `N`. -/
theorem histogram_count_is_cycle (containers : List String) (orgID : String) (now : Nat → Int)
    (rnd : Nat → Nat → Draws) (hnd : containers.Nodup) (i : Nat) (hi : i < containers.length)
    (N : Nat) (hN : 1 ≤ N) :
    seriesAt (batch containers orgID now rnd (N - 1)) i 10 =
      some ⟨histLabelsOf containers[i] orgID, [⟨now (N - 1), (N : ℚ)⟩]⟩ := by
  obtain ⟨n, rfl⟩ : ∃ n, N = n + 1 := ⟨N - 1, by omega⟩
  have hst := stateAfter_ok containers orgID now rnd n
  simp only [Nat.add_sub_cancel]
  unfold batch
  rw [generate_block_nodup containers orgID (now n) (rnd n) _ hst hnd i hi 10 (by decide),
    generateBody_out orgID (now n) containers[i] (rnd n i) _ hst]
  simp only [observe, hist_count_nodup containers orgID now rnd hnd i hi n]
  rfl

/-- An instance of the count theorem: second of two containers, third call. -/
theorem histogram_count_is_cycle_witness :
    ["a", "b"].Nodup ∧ (1 : Nat) < ["a", "b"].length ∧ 1 ≤ 3 ∧
    seriesAt (batch ["a", "b"] "t" sampleNow sampleRnd (3 - 1)) 1 10 =
      some ⟨histLabelsOf "b" "t", [⟨sampleNow (3 - 1), ((3 : Nat) : ℚ)⟩]⟩ :=
  ⟨by decide, by decide, by decide,
    histogram_count_is_cycle ["a", "b"] "t" sampleNow sampleRnd (by decide) 1 (by decide) 3
      (by decide)⟩

/-! ## Shape and labels of a request -/

/-- C3: for the one-container list `["a"]` a call of `generate` on a new sender returns 16
series (3 gauges, 1 counter, 7 of the histogram family, 5 of the summary family), not the
14 that the comment of lines 56-57 and the capacity of line 58 announce. -/
theorem series_count_sixteen :
    (NewMetricSender.generate ["a"] "t" 1000 (fun _ => sampleDraws) initState).2.length = 16 ∧
    (NewMetricSender.generate ["a"] "t" 1000 (fun _ => sampleDraws) initState).2.length ≠
      14 * ["a"].length := by
  decide!

/-- C4: in the request for the one-container list `["a"]`, the `_sum` series of the histogram
(offset 9) has two labels named `__name__`: lines 128 and 132 append the name to `histLabels`,
which already holds one, where lines 158 and 162 append to `baseLabels`. -/
theorem histogram_sum_labels_duplicate :
    (seriesAt (NewMetricSender.generate ["a"] "t" 1000 (fun _ => sampleDraws) initState).2 0 9).map
        (fun t => t.Labels.map (fun l => l.Name)) =
      some ["container", "orgid", "sender", "__name__", "__name__"] ∧
    ¬ ["container", "orgid", "sender", "__name__", "__name__"].Nodup := by
  decide!

/-- C7: in the request for the one-container list `["a"]`, the four bucket series and the
`+Inf` series (offsets 4 to 8) carry the values of the boundaries in ascending order, but
none of them carries a label `le`: `histLabels` has length 4 and capacity 6, so the appends
of lines 114, 122, 128 and 132 all write the fifth cell of one shared array, and every series
of the family reads the label written last. -/
theorem bucket_series_lose_le_label :
    (((List.range 5).map
        (fun j => seriesAt
          (NewMetricSender.generate ["a"] "t" 1000 (fun _ => sampleDraws) initState).2 0 (4 + j))) =
      [some ⟨histLabelsOf "a" "t", [⟨1000, 0⟩]⟩, some ⟨histLabelsOf "a" "t", [⟨1000, 1⟩]⟩,
        some ⟨histLabelsOf "a" "t", [⟨1000, 1⟩]⟩, some ⟨histLabelsOf "a" "t", [⟨1000, 1⟩]⟩,
        some ⟨histLabelsOf "a" "t", [⟨1000, 1⟩]⟩]) ∧
    (∀ l ∈ histLabelsOf "a" "t", l.Name ≠ "le") ∧
    histLabelsOf "a" "t" =
      [⟨"container", "a"⟩, ⟨"orgid", "t"⟩, ⟨"sender", "logmetrics"⟩,
        ⟨"__name__", "request_latency_seconds"⟩,
        ⟨"__name__", "request_latency_seconds_count"⟩] := by
  decide!

/-! ## The plain-text sender -/

theorem take_set_self (x : GoString) (lines : List GoString) :
    ∀ i, (lines.set i x).take i = lines.take i := by
  induction lines with
  | nil => intro i; simp
  | cons l ls ih =>
    intro i
    cases i with
    | zero => simp
    | succ i => simp [ih i]

theorem fillLines_eq (pickRandom : Nat → List GoString → GoString) (Lines : List GoString)
    (n : Nat) :
    ∀ (fuel i : Nat) (lines : List GoString), lines.length = n → i + fuel = n →
      fillLines pickRandom Lines n fuel i lines =
        lines.take i ++ (List.range' i fuel).map (fun k => pickRandom k Lines) := by
  intro fuel
  induction fuel with
  | zero =>
    intro i lines hl hi
    simp only [fillLines, List.range'_zero, List.map_nil, List.append_nil]
    rw [List.take_of_length_le (by omega)]
  | succ fuel ih =>
    intro i lines hl hi
    have hlt : i < n := by omega
    simp only [fillLines, hlt, if_true]
    rw [ih (i + 1) _ (by simp [hl]) (by omega), List.take_succ,
      List.getElem?_set_self (by omega), take_set_self]
    simp [List.range'_succ]

/-- The lines of the request of `generate`: result `k` of `pickRandom` at position `k`. -/
theorem generate_lines (n : Nat) (Lines : List GoString)
    (pickRandom : Nat → List GoString → GoString) :
    NewPlainTextSender.generate (n : Int) Lines pickRandom =
      some ⟨(List.range n).map (fun k => pickRandom k Lines)⟩ := by
  have h : ¬ ((n : Int) < 0) := by omega
  simp only [NewPlainTextSender.generate, h, if_false, Int.toNat_ofNat]
  rw [fillLines_eq pickRandom Lines n n 0 _ (by simp) (by omega)]
  simp [List.range_eq_range']

/-- C8: for a non-negative `linesPerCycle` and a non-empty pool from which `pickRandom` always
returns an element, the plain-text `generate` returns a request with exactly `linesPerCycle`
lines, each an element of the pool, and `Size()` of the request is `linesPerCycle`. -/
theorem plaintext_generate_lines (LinesPS : Int) (hn : 0 ≤ LinesPS) (Lines : List GoString)
    (_hne : Lines ≠ []) (pickRandom : Nat → List GoString → GoString)
    (hp : ∀ k, pickRandom k Lines ∈ Lines) :
    ∃ req : PlainTextReq, NewPlainTextSender.generate LinesPS Lines pickRandom = some req ∧
      (req.lines.length : Int) = LinesPS ∧ (∀ l ∈ req.lines, l ∈ Lines) ∧
      req.Size = LinesPS := by
  obtain ⟨n, rfl⟩ := Int.eq_ofNat_of_zero_le hn
  refine ⟨_, generate_lines n Lines pickRandom, ?_, ?_, ?_⟩
  · simp
  · intro l hl
    simp only [List.mem_map, List.mem_range] at hl
    obtain ⟨k, _, rfl⟩ := hl
    exact hp k
  · simp [PlainTextReq.Size]

/-- An instance of the plain-text theorem: five lines from a pool of two, picked in turn. -/
theorem plaintext_generate_lines_witness :
    (0 : Int) ≤ 5 ∧ ([[97], [98]] : List GoString) ≠ [] ∧
    (∀ k, (fun (k : Nat) (p : List GoString) => p.getD (k % 2) []) k [[97], [98]] ∈
      ([[97], [98]] : List GoString)) ∧
    ∃ req : PlainTextReq,
      NewPlainTextSender.generate 5 [[97], [98]] (fun k p => p.getD (k % 2) []) = some req ∧
      (req.lines.length : Int) = 5 ∧ (∀ l ∈ req.lines, l ∈ ([[97], [98]] : List GoString)) ∧
      req.Size = 5 :=
  have hp : ∀ k, (fun (k : Nat) (p : List GoString) => p.getD (k % 2) []) k [[97], [98]] ∈
      ([[97], [98]] : List GoString) := by
    intro k
    rcases Nat.mod_two_eq_zero_or_one k with h | h <;> simp [h]
  ⟨by decide, by decide, hp,
    plaintext_generate_lines 5 (by decide) [[97], [98]] (by decide)
      (fun k p => p.getD (k % 2) []) hp⟩

theorem serialize_foldl (lines : List GoString) :
    ∀ buf : List UInt8,
      lines.foldl (fun buf line => (buf ++ line) ++ [10]) buf =
        buf ++ (lines.map (fun line => line ++ [10])).flatten := by
  induction lines with
  | nil => intro buf; simp
  | cons l ls ih =>
    intro buf
    rw [List.foldl_cons, ih, List.map_cons, List.flatten_cons]
    simp only [List.append_assoc]

/-- C9: `Serialize` returns a nil error and, as payload, the lines in order, each followed by
one newline byte (the last one too); the request `generate` builds for `LinesPS = 0` has an
empty payload, whatever the pool and `pickRandom`. -/
theorem serialize_newline_terminated :
    (∀ lines : List GoString,
      PlainTextReq.Serialize ⟨lines⟩ = ((lines.map (fun line => line ++ [10])).flatten, none)) ∧
    (∀ (Lines : List GoString) (pickRandom : Nat → List GoString → GoString),
      (NewPlainTextSender.generate 0 Lines pickRandom).map PlainTextReq.Serialize =
        some ([], none)) := by
  refine ⟨?_, ?_⟩
  · intro lines
    simp only [PlainTextReq.Serialize]
    rw [serialize_foldl, List.nil_append]
  · intro Lines pickRandom
    rfl

/-! ## Gauges -/

/-- A gauge value `math.Max(float64(base%M + (r - B)), 0)` with `0 ≤ r < 2 * B`. -/
theorem gauge_bounds (base M : Nat) (r B : Int) (h0 : 0 ≤ r) (h1 : r < 2 * B) :
    -B ≤ r - B ∧ r - B < B ∧
    max ((Int.tmod (base : Int) (M : Int) + (r - B) : Int) : ℚ) 0 =
      max 0 (((base % M : Nat) : ℚ) + ((r - B : Int) : ℚ)) ∧
    (0 : ℚ) ≤ max 0 (((base % M : Nat) : ℚ) + ((r - B : Int) : ℚ)) ∧
    |max 0 (((base % M : Nat) : ℚ) + ((r - B : Int) : ℚ)) - ((base % M : Nat) : ℚ)| ≤ (B : ℚ) := by
  have hm : (0 : ℚ) ≤ ((base % M : Nat) : ℚ) := Nat.cast_nonneg _
  have hlo : -(B : ℚ) ≤ ((r - B : Int) : ℚ) := by
    have : -B ≤ r - B := by omega
    exact_mod_cast this
  have hhi : ((r - B : Int) : ℚ) ≤ (B : ℚ) := by
    have : r - B ≤ B := by omega
    exact_mod_cast this
  refine ⟨by omega, by omega, ?_, le_max_left _ _, ?_⟩
  · rw [← Int.ofNat_tmod, max_comm]
    push_cast
    rfl
  · rw [abs_le]
    constructor
    · rcases le_total 0 (((base % M : Nat) : ℚ) + ((r - B : Int) : ℚ)) with h | h
      · rw [max_eq_right h]; linarith
      · rw [max_eq_left h]; linarith
    · rcases le_total 0 (((base % M : Nat) : ℚ) + ((r - B : Int) : ℚ)) with h | h
      · rw [max_eq_right h]; linarith
      · rw [max_eq_left h]; linarith

/-- C10: with `base` the CRC-32 (IEEE) checksum of the container name, and the results of
`random(20)`, `random(200)`, `random(2000)` in range, the `cpu_usage`, `ram_usage` and
`network_usage` series of every call (offsets 0, 1, 2 of the block) carry
`max(0, base mod M + noise)` for `M = 100, 1000, 1000000` with the noise `random(2B) - B`
in `[-B, B)` for `B = 10, 100, 1000`; each value is non-negative and within `B` of
`base mod M`; the base is the same in every call. -/
theorem gauges_base_plus_noise (containers : List String) (orgID : String) (now : Nat → Int)
    (rnd : Nat → Nat → Draws) (i : Nat) (hi : i < containers.length)
    (hr : ∀ n, (0 ≤ (rnd n i).random20 ∧ (rnd n i).random20 < 20) ∧
      (0 ≤ (rnd n i).random200 ∧ (rnd n i).random200 < 200) ∧
      (0 ≤ (rnd n i).random2000 ∧ (rnd n i).random2000 < 2000)) :
    ∃ base : Nat, base = ChecksumIEEE containers[i] ∧ ∀ n, ∃ e1 e2 e3 : Int,
      (e1 = (rnd n i).random20 - 10 ∧ e2 = (rnd n i).random200 - 100 ∧
        e3 = (rnd n i).random2000 - 1000) ∧
      (-10 ≤ e1 ∧ e1 < 10) ∧ (-100 ≤ e2 ∧ e2 < 100) ∧ (-1000 ≤ e3 ∧ e3 < 1000) ∧
      seriesAt (batch containers orgID now rnd n) i 0 =
        some ⟨baseLabelsOf containers[i] orgID ++ [⟨"__name__", "cpu_usage"⟩],
          [⟨now n, max 0 (((base % 100 : Nat) : ℚ) + (e1 : ℚ))⟩]⟩ ∧
      seriesAt (batch containers orgID now rnd n) i 1 =
        some ⟨baseLabelsOf containers[i] orgID ++ [⟨"__name__", "ram_usage"⟩],
          [⟨now n, max 0 (((base % 1000 : Nat) : ℚ) + (e2 : ℚ))⟩]⟩ ∧
      seriesAt (batch containers orgID now rnd n) i 2 =
        some ⟨baseLabelsOf containers[i] orgID ++ [⟨"__name__", "network_usage"⟩],
          [⟨now n, max 0 (((base % 1000000 : Nat) : ℚ) + (e3 : ℚ))⟩]⟩ ∧
      (0 : ℚ) ≤ max 0 (((base % 100 : Nat) : ℚ) + (e1 : ℚ)) ∧
      (0 : ℚ) ≤ max 0 (((base % 1000 : Nat) : ℚ) + (e2 : ℚ)) ∧
      (0 : ℚ) ≤ max 0 (((base % 1000000 : Nat) : ℚ) + (e3 : ℚ)) ∧
      |max 0 (((base % 100 : Nat) : ℚ) + (e1 : ℚ)) - ((base % 100 : Nat) : ℚ)| ≤ 10 ∧
      |max 0 (((base % 1000 : Nat) : ℚ) + (e2 : ℚ)) - ((base % 1000 : Nat) : ℚ)| ≤ 100 ∧
      |max 0 (((base % 1000000 : Nat) : ℚ) + (e3 : ℚ)) - ((base % 1000000 : Nat) : ℚ)| ≤ 1000 := by
  refine ⟨ChecksumIEEE containers[i], rfl, fun n => ?_⟩
  obtain ⟨⟨a0, a1⟩, ⟨b0, b1⟩, ⟨c0, c1⟩⟩ := hr n
  obtain ⟨p1, p2, p3, p4, p5⟩ :=
    gauge_bounds (ChecksumIEEE containers[i]) 100 (rnd n i).random20 10 a0 (by omega)
  obtain ⟨q1, q2, q3, q4, q5⟩ :=
    gauge_bounds (ChecksumIEEE containers[i]) 1000 (rnd n i).random200 100 b0 (by omega)
  obtain ⟨r1, r2, r3, r4, r5⟩ :=
    gauge_bounds (ChecksumIEEE containers[i]) 1000000 (rnd n i).random2000 1000 c0 (by omega)
  have hst := stateAfter_ok containers orgID now rnd n
  have hmid := generateLoop_ok orgID (now n) (rnd n) (containers.take i) 0 _ [] hst
  refine ⟨_, _, _, ⟨rfl, rfl, rfl⟩, ⟨p1, p2⟩, ⟨q1, q2⟩, ⟨r1, r2⟩, ?_, ?_, ?_, p4, q4, r4,
    by exact_mod_cast p5, by exact_mod_cast q5, by exact_mod_cast r5⟩
  · unfold batch
    rw [generate_block containers orgID (now n) (rnd n) _ hst i hi 0 (by decide),
      generateBody_out orgID (now n) containers[i] (rnd n i) _ hmid, ← p3]
    rfl
  · unfold batch
    rw [generate_block containers orgID (now n) (rnd n) _ hst i hi 1 (by decide),
      generateBody_out orgID (now n) containers[i] (rnd n i) _ hmid, ← q3]
    rfl
  · unfold batch
    rw [generate_block containers orgID (now n) (rnd n) _ hst i hi 2 (by decide),
      generateBody_out orgID (now n) containers[i] (rnd n i) _ hmid, ← r3]
    rfl

/-- An instance of the gauge theorem: one container, draws `sampleRnd`. -/
theorem gauges_base_plus_noise_witness :
    (0 : Nat) < ["a"].length ∧
    ∃ base : Nat, base = ChecksumIEEE "a" ∧ ∀ n, ∃ e1 e2 e3 : Int,
      (e1 = (sampleRnd n 0).random20 - 10 ∧ e2 = (sampleRnd n 0).random200 - 100 ∧
        e3 = (sampleRnd n 0).random2000 - 1000) ∧
      (-10 ≤ e1 ∧ e1 < 10) ∧ (-100 ≤ e2 ∧ e2 < 100) ∧ (-1000 ≤ e3 ∧ e3 < 1000) ∧
      seriesAt (batch ["a"] "t" sampleNow sampleRnd n) 0 0 =
        some ⟨baseLabelsOf "a" "t" ++ [⟨"__name__", "cpu_usage"⟩],
          [⟨sampleNow n, max 0 (((base % 100 : Nat) : ℚ) + (e1 : ℚ))⟩]⟩ ∧
      seriesAt (batch ["a"] "t" sampleNow sampleRnd n) 0 1 =
        some ⟨baseLabelsOf "a" "t" ++ [⟨"__name__", "ram_usage"⟩],
          [⟨sampleNow n, max 0 (((base % 1000 : Nat) : ℚ) + (e2 : ℚ))⟩]⟩ ∧
      seriesAt (batch ["a"] "t" sampleNow sampleRnd n) 0 2 =
        some ⟨baseLabelsOf "a" "t" ++ [⟨"__name__", "network_usage"⟩],
          [⟨sampleNow n, max 0 (((base % 1000000 : Nat) : ℚ) + (e3 : ℚ))⟩]⟩ ∧
      (0 : ℚ) ≤ max 0 (((base % 100 : Nat) : ℚ) + (e1 : ℚ)) ∧
      (0 : ℚ) ≤ max 0 (((base % 1000 : Nat) : ℚ) + (e2 : ℚ)) ∧
      (0 : ℚ) ≤ max 0 (((base % 1000000 : Nat) : ℚ) + (e3 : ℚ)) ∧
      |max 0 (((base % 100 : Nat) : ℚ) + (e1 : ℚ)) - ((base % 100 : Nat) : ℚ)| ≤ 10 ∧
      |max 0 (((base % 1000 : Nat) : ℚ) + (e2 : ℚ)) - ((base % 1000 : Nat) : ℚ)| ≤ 100 ∧
      |max 0 (((base % 1000000 : Nat) : ℚ) + (e3 : ℚ)) - ((base % 1000000 : Nat) : ℚ)| ≤ 1000 :=
  ⟨by decide,
    gauges_base_plus_noise ["a"] "t" sampleNow sampleRnd 0 (by decide)
      (fun _ => (by decide : ((0 : Int) ≤ 3 ∧ (3 : Int) < 20) ∧ ((0 : Int) ≤ 50 ∧ (50 : Int) < 200) ∧
        ((0 : Int) ≤ 500 ∧ (500 : Int) < 2000)))⟩

/-! ## Blocks of a request -/

theorem generateBody_block (orgID : String) (now : Int) (c : String) (d : Draws)
    (st : SenderState) (hst : StateOk st) :
    (generateBody orgID now c d st).2 =
      blockSeries c orgID now d ((st.counters c).getD 0 + ((d.random5 + 1 : Int) : ℚ))
        (observe (histOf st c) (observedLatency d)) := by
  rw [generateBody_out orgID now c d st hst]
  rfl

/-- The state of the histogram of the container at position `i` when its series are emitted
in call `n + 1`, as a fold over the observations made so far. -/
theorem histAt_eq (containers : List String) (orgID : String) (now : Nat → Int)
    (rnd : Nat → Nat → Draws) (n i : Nat) (hi : i < containers.length) :
    observe (histOf (generateLoop orgID (now n) (rnd n) (containers.take i) 0
        (stateAfter containers orgID now rnd n) []).1 containers[i])
      (observedLatency (rnd n i)) = histAt containers rnd containers[i] n i := by
  unfold histAt
  rw [observedUpTo_eq containers rnd n i hi, generateLoop_hist, stateAfter_hist]
  simp only [List.foldl_append, List.foldl_cons, List.foldl_nil]

/-- Every series of a request, by block and offset. -/
theorem batch_series (containers : List String) (orgID : String) (now : Nat → Int)
    (rnd : Nat → Nat → Draws) (n i : Nat) (hi : i < containers.length) :
    ∃ counter : ℚ, ∀ j, j < 16 →
      seriesAt (batch containers orgID now rnd n) i j =
        (blockSeries containers[i] orgID (now n) (rnd n i) counter
          (histAt containers rnd containers[i] n i))[j]? := by
  have hst := stateAfter_ok containers orgID now rnd n
  have hmid := generateLoop_ok orgID (now n) (rnd n) (containers.take i) 0 _ [] hst
  refine ⟨((generateLoop orgID (now n) (rnd n) (containers.take i) 0
    (stateAfter containers orgID now rnd n) []).1.counters containers[i]).getD 0 +
      ((((rnd n i).random5 + 1 : Int)) : ℚ), fun j hj => ?_⟩
  unfold batch
  rw [generate_block containers orgID (now n) (rnd n) _ hst i hi j hj,
    generateBody_block orgID (now n) containers[i] (rnd n i) _ hmid,
    histAt_eq containers orgID now rnd n i hi]

theorem batch_length (containers : List String) (orgID : String) (now : Nat → Int)
    (rnd : Nat → Nat → Draws) (n : Nat) :
    (batch containers orgID now rnd n).length = 16 * containers.length :=
  generate_length containers orgID (now n) (rnd n) _ (stateAfter_ok containers orgID now rnd n)

theorem blockSeries_length (c orgID : String) (now : Int) (d : Draws) (counter : ℚ)
    (H : histogramState) : (blockSeries c orgID now d counter H).length = 16 := rfl

/-- The block of a container as a list. -/
theorem batch_blockAt (containers : List String) (orgID : String) (now : Nat → Int)
    (rnd : Nat → Nat → Draws) (n i : Nat) (hi : i < containers.length) :
    ∃ counter : ℚ,
      blockAt (batch containers orgID now rnd n) i =
        blockSeries containers[i] orgID (now n) (rnd n i) counter
          (histAt containers rnd containers[i] n i) := by
  obtain ⟨counter, h⟩ := batch_series containers orgID now rnd n i hi
  refine ⟨counter, ?_⟩
  apply List.ext_getElem?
  intro j
  by_cases hj : j < 16
  · have := h j hj
    simp only [seriesAt, seriesPerContainer] at this
    simp only [blockAt, seriesPerContainer, List.getElem?_take, hj, if_true, List.getElem?_drop]
    exact this
  · have h1 : (blockSeries containers[i] orgID (now n) (rnd n i) counter
        (histAt containers rnd containers[i] n i)).length ≤ j := by
      rw [blockSeries_length]; omega
    rw [List.getElem?_eq_none h1]
    simp [blockAt, seriesPerContainer, List.getElem?_take, hj]

theorem blockSeries_take3 (c orgID : String) (now : Int) (d : Draws) (counter : ℚ)
    (H : histogramState) (s : TimeSeries) (hs : s ∈ blockSeries c orgID now d counter H) :
    s.Labels.take 3 = [⟨"container", c⟩, ⟨"orgid", orgID⟩, ⟨"sender", "logmetrics"⟩] := by
  simp only [blockSeries, List.mem_cons, List.mem_singleton, List.not_mem_nil, or_false] at hs
  rcases hs with h | h | h | h | h | h | h | h | h | h | h | h | h | h | h | h <;>
    subst h <;> rfl

theorem blockSeries_samples (c orgID : String) (now : Int) (d : Draws) (counter : ℚ)
    (H : histogramState) (s : TimeSeries) (hs : s ∈ blockSeries c orgID now d counter H) :
    ∃ v : ℚ, s.Samples = [⟨now, v⟩] := by
  simp only [blockSeries, List.mem_cons, List.mem_singleton, List.not_mem_nil, or_false] at hs
  rcases hs with h | h | h | h | h | h | h | h | h | h | h | h | h | h | h | h <;>
    subst h <;> exact ⟨_, rfl⟩

/-- A list whose length is `m * K` is the concatenation of its `K` consecutive pieces of
length `m`. -/
theorem eq_flatMap_blocks (m : Nat) :
    ∀ (K : Nat) (l : List TimeSeries), l.length = m * K →
      l = (List.range K).flatMap (fun i => (l.drop (m * i)).take m) := by
  intro K
  induction K with
  | zero =>
    intro l h
    simp only [Nat.mul_zero, List.length_eq_zero] at h
    simp [h]
  | succ K ih =>
    intro l h
    have h2 : (l.drop m).length = m * K := by
      rw [List.length_drop, h]
      simp [Nat.mul_succ]
    have := ih (l.drop m) h2
    rw [List.range_succ_eq_map, List.flatMap_cons, List.flatMap_map]
    simp only [Nat.mul_zero, List.drop_zero]
    conv_lhs => rw [← List.take_append_drop m l, this]
    congr 1
    apply List.flatMap_congr
    intro i _
    simp only [Function.comp, List.drop_drop, Nat.succ_eq_add_one]
    rw [show m * (i + 1) = m + m * i by ring]

/-- C11: the request of a call is the concatenation, in container order, of one block of
sixteen series per container; the block of the container at position `i` consists of the
series of `blockSeries`, in the order of the `append` statements (three gauges, counter, the
four buckets in ascending boundary order, `+Inf`, histogram `_sum` and `_count`, the three
quantiles, summary `_sum` and `_count`), and every series of the block starts with the labels
`container`, `orgid`, `sender="logmetrics"`. -/
theorem batch_blocks_in_order (containers : List String) (orgID : String) (now : Nat → Int)
    (rnd : Nat → Nat → Draws) (n i : Nat) (hi : i < containers.length) :
    batch containers orgID now rnd n =
      (List.range containers.length).flatMap (blockAt (batch containers orgID now rnd n)) ∧
    (∃ counter : ℚ,
      blockAt (batch containers orgID now rnd n) i =
        blockSeries containers[i] orgID (now n) (rnd n i) counter
          (histAt containers rnd containers[i] n i)) ∧
    (blockAt (batch containers orgID now rnd n) i).length = 16 ∧
    ∀ s ∈ blockAt (batch containers orgID now rnd n) i,
      s.Labels.take 3 = [⟨"container", containers[i]⟩, ⟨"orgid", orgID⟩,
        ⟨"sender", "logmetrics"⟩] := by
  obtain ⟨counter, h⟩ := batch_blockAt containers orgID now rnd n i hi
  refine ⟨?_, ⟨counter, h⟩, ?_, ?_⟩
  · exact eq_flatMap_blocks 16 containers.length _
      (batch_length containers orgID now rnd n)
  · rw [h]; rfl
  · intro s hs
    rw [h] at hs
    exact blockSeries_take3 _ _ _ _ _ _ s hs

/-- An instance of the block theorem: second of two containers, first call. -/
theorem batch_blocks_in_order_witness :
    (1 : Nat) < ["a", "b"].length ∧
    (batch ["a", "b"] "t" sampleNow sampleRnd 0 =
      (List.range ["a", "b"].length).flatMap (blockAt (batch ["a", "b"] "t" sampleNow sampleRnd 0)) ∧
    (∃ counter : ℚ,
      blockAt (batch ["a", "b"] "t" sampleNow sampleRnd 0) 1 =
        blockSeries "b" "t" (sampleNow 0) (sampleRnd 0 1) counter
          (histAt ["a", "b"] sampleRnd "b" 0 1)) ∧
    (blockAt (batch ["a", "b"] "t" sampleNow sampleRnd 0) 1).length = 16 ∧
    ∀ s ∈ blockAt (batch ["a", "b"] "t" sampleNow sampleRnd 0) 1,
      s.Labels.take 3 = [⟨"container", "b"⟩, ⟨"orgid", "t"⟩, ⟨"sender", "logmetrics"⟩]) :=
  ⟨by decide, batch_blocks_in_order ["a", "b"] "t" sampleNow sampleRnd 0 1 (by decide)⟩

/-- C20: every series of the request of a call carries exactly one sample, whose timestamp is
the clock reading `now` taken at the start of the call. -/
theorem one_sample_per_series (containers : List String) (orgID : String) (now : Nat → Int)
    (rnd : Nat → Nat → Draws) (n : Nat) (s : TimeSeries)
    (hs : s ∈ batch containers orgID now rnd n) :
    ∃ v : ℚ, s.Samples = [⟨now n, v⟩] := by
  rw [eq_flatMap_blocks 16 containers.length _ (batch_length containers orgID now rnd n),
    List.mem_flatMap] at hs
  obtain ⟨i, hi, hmem⟩ := hs
  rw [List.mem_range] at hi
  obtain ⟨counter, h⟩ := batch_blockAt containers orgID now rnd n i hi
  have hmem2 : s ∈ blockAt (batch containers orgID now rnd n) i := hmem
  rw [h] at hmem2
  exact blockSeries_samples _ _ _ _ _ _ s hmem2

/-- An instance of the sample theorem: the `cpu_usage` series of the first call. -/
theorem one_sample_per_series_witness :
    (⟨baseLabelsOf "a" "t" ++ [⟨"__name__", "cpu_usage"⟩], [⟨1000, 0⟩]⟩ : TimeSeries) ∈
      batch ["a"] "t" sampleNow sampleRnd 0 ∧
    ∃ v : ℚ, (⟨baseLabelsOf "a" "t" ++ [⟨"__name__", "cpu_usage"⟩], [⟨1000, 0⟩]⟩ :
      TimeSeries).Samples = [⟨sampleNow 0, v⟩] :=
  ⟨by decide!, one_sample_per_series ["a"] "t" sampleNow sampleRnd 0 _ (by decide!)⟩

/-! ## Labels of the summary family and identity of series -/

/-- C12: in the request for the one-container list `["a"]`, the three quantile series
(offsets 11, 12, 13) carry the values `p50`, `p90`, `p99` in this order, the `_sum` series
`p99 × 10` and the `_count` series `100`, but all three quantile series carry the label
`quantile="0.99"`: `summaryLabels` has length 4 and capacity 6, so the appends of lines 146,
150 and 154 write the fifth cell of one shared array. -/
theorem quantile_series_share_label :
    ((List.range 5).map
        (fun j => seriesAt
          (NewMetricSender.generate ["a"] "t" 1000 (fun _ => sampleDraws) initState).2 0 (11 + j)) =
      [some ⟨quantileLabelsOf "a" "t", [⟨1000, p50Of "a" sampleDraws⟩]⟩,
        some ⟨quantileLabelsOf "a" "t", [⟨1000, p90Of "a" sampleDraws⟩]⟩,
        some ⟨quantileLabelsOf "a" "t", [⟨1000, p99Of "a" sampleDraws⟩]⟩,
        some ⟨baseLabelsOf "a" "t" ++ [⟨"__name__", "response_size_bytes_sum"⟩],
          [⟨1000, p99Of "a" sampleDraws * 10⟩]⟩,
        some ⟨baseLabelsOf "a" "t" ++ [⟨"__name__", "response_size_bytes_count"⟩],
          [⟨1000, 100⟩]⟩]) ∧
    quantileLabelsOf "a" "t" =
      [⟨"container", "a"⟩, ⟨"orgid", "t"⟩, ⟨"sender", "logmetrics"⟩,
        ⟨"__name__", "response_size_bytes"⟩, ⟨"quantile", "0.99"⟩] ∧
    (⟨"quantile", "0.5"⟩ : Label) ∉ quantileLabelsOf "a" "t" ∧
    (⟨"quantile", "0.9"⟩ : Label) ∉ quantileLabelsOf "a" "t" := by
  decide!

/-- C16: in the request for the one-container list `["a"]`, the series at offsets 4 and 5
(the buckets `0.1` and `0.5`) have the same label set, so the label sets of the request are
not pairwise distinct. -/
theorem label_sets_repeat :
    (seriesAt (NewMetricSender.generate ["a"] "t" 1000 (fun _ => sampleDraws) initState).2 0 4).map
        (fun t => t.Labels) = some (histLabelsOf "a" "t") ∧
    (seriesAt (NewMetricSender.generate ["a"] "t" 1000 (fun _ => sampleDraws) initState).2 0 5).map
        (fun t => t.Labels) = some (histLabelsOf "a" "t") ∧
    ["a"].Nodup ∧
    ¬ ((NewMetricSender.generate ["a"] "t" 1000 (fun _ => sampleDraws) initState).2.map
        (fun t => t.Labels)).Nodup := by
  decide!

/-! ## Histogram sum and the largest bucket -/

theorem hist_sum_nodup (containers : List String) (orgID : String) (now : Nat → Int)
    (rnd : Nat → Nat → Draws) (hnd : containers.Nodup) (i : Nat) (hi : i < containers.length)
    (n : Nat) :
    (histOf (stateAfter containers orgID now rnd n) containers[i]).sum =
      (List.range n).foldl (fun acc k => f64Add acc (observedLatency (rnd k i))) 0 := by
  induction n with
  | zero => rfl
  | succ n ih =>
    unfold histOf
    rw [(stateAfter_succ_at containers orgID now rnd hnd i hi n).2, Option.getD_some,
      List.range_succ, List.foldl_append]
    simp only [observe, ih, List.foldl_cons, List.foldl_nil]

/-- The series appended by lines 127-130 (offset 9 of the block): with pairwise distinct
container names it carries in call `N ≥ 1` the `float64` sum of the latencies observed for
the container in calls `1..N`, added in call order starting from 0; its labels are those of
`histLabelsOf`. -/
theorem hist_sum_series (containers : List String) (orgID : String)
    (now : Nat → Int) (rnd : Nat → Nat → Draws) (hnd : containers.Nodup) (i : Nat)
    (hi : i < containers.length) (N : Nat) (hN : 1 ≤ N) :
    seriesAt (batch containers orgID now rnd (N - 1)) i 9 =
      some ⟨histLabelsOf containers[i] orgID,
        [⟨now (N - 1),
          (List.range N).foldl (fun acc k => f64Add acc (observedLatency (rnd k i))) 0⟩]⟩ := by
  obtain ⟨n, rfl⟩ : ∃ n, N = n + 1 := ⟨N - 1, by omega⟩
  have hst := stateAfter_ok containers orgID now rnd n
  simp only [Nat.add_sub_cancel]
  unfold batch
  rw [generate_block_nodup containers orgID (now n) (rnd n) _ hst hnd i hi 9 (by decide),
    generateBody_block orgID (now n) containers[i] (rnd n i) _ hst, List.range_succ,
    List.foldl_append, ← hist_sum_nodup containers orgID now rnd hnd i hi n]
  rfl

/-- C13: for the one-container list `["a"]` and the latencies `1 + 2^-52`, `1 + 2^-51`, the
series appended by lines 127-130 in the second call (offset 9) carries the `float64` sum of
the two latencies added in call order, `2 + 2^-50`, but it is not a
`request_latency_seconds_sum` series: its labels are those of `histLabelsOf`, ending in
`__name__=request_latency_seconds_count`, and no series of the request carries the label
`__name__=request_latency_seconds_sum` that line 128 appends. -/
theorem histogram_sum_series_mislabelled :
    seriesAt (batch ["a"] "t" sampleNow roundingRnd 1) 0 9 =
      some ⟨histLabelsOf "a" "t",
        [⟨sampleNow 1,
          (List.range 2).foldl (fun acc k => f64Add acc (observedLatency (roundingRnd k 0))) 0⟩]⟩ ∧
    (List.range 2).foldl (fun acc k => f64Add acc (observedLatency (roundingRnd k 0))) 0 =
      2251799813685249 / 1125899906842624 ∧
    [observedLatency (roundingRnd 0 0), observedLatency (roundingRnd 1 0)] =
      [4503599627370497 / 4503599627370496, 2251799813685249 / 2251799813685248] ∧
    (⟨"__name__", "request_latency_seconds_sum"⟩ : Label) ∉ histLabelsOf "a" "t" ∧
    ∀ s ∈ batch ["a"] "t" sampleNow roundingRnd 1,
      (⟨"__name__", "request_latency_seconds_sum"⟩ : Label) ∉ s.Labels := by
  decide!

theorem observedLatency_range (d : Draws) (h0 : 0 ≤ d.float97) (h1 : d.float97 < 1) :
    0 ≤ observedLatency d ∧ observedLatency d < 2 := by
  unfold observedLatency
  rw [abs_of_nonneg (by linarith)]
  constructor <;> linarith

theorem mem_cycleObservations (name : String) (rnd : Nat → Draws) (v : ℚ) (cs : List String) :
    ∀ i, v ∈ cycleObservations name rnd cs i → ∃ k, v = observedLatency (rnd k) := by
  induction cs with
  | nil => intro i h; simp [cycleObservations] at h
  | cons c cs ih =>
    intro i h
    simp only [cycleObservations, List.mem_append] at h
    rcases h with h | h
    · split at h
      · simp only [List.mem_singleton] at h
        exact ⟨i, h⟩
      · simp at h
    · exact ih (i + 1) h

theorem mem_observations (containers : List String) (rnd : Nat → Nat → Draws) (name : String)
    (v : ℚ) :
    ∀ n, v ∈ observations containers rnd name n → ∃ m k, v = observedLatency (rnd m k) := by
  intro n
  induction n with
  | zero => intro h; simp [observations] at h
  | succ n ih =>
    intro h
    simp only [observations, List.mem_append] at h
    rcases h with h | h
    · exact ih h
    · obtain ⟨k, hk⟩ := mem_cycleObservations name (rnd n) v containers 0 h
      exact ⟨n, k, hk⟩

theorem mem_observedUpTo (containers : List String) (rnd : Nat → Nat → Draws) (name : String)
    (v : ℚ) (n i : Nat) (h : v ∈ observedUpTo containers rnd name n i) :
    ∃ m k, v = observedLatency (rnd m k) := by
  simp only [observedUpTo, List.mem_append] at h
  rcases h with h | h
  · exact mem_observations containers rnd name v n h
  · obtain ⟨k, hk⟩ := mem_cycleObservations name (rnd n) v _ 0 h
    exact ⟨n, k, hk⟩

theorem countP_le_five (obs : List ℚ) (h : ∀ v ∈ obs, v < 2) :
    obs.countP (fun v => decide (v ≤ 5)) = obs.length := by
  rw [List.countP_eq_length]
  intro v hv
  have := h v hv
  simp only [decide_eq_true_eq]
  linarith

/-- C17: with every raw uniform draw in `[0,1)`, every observed latency lies in `[0,2)`;
hence in every stored histogram state the tally of the boundary `5` equals the total count,
and in every block the series of the bucket `5` (offset 7) and the series emitted for `+Inf`
(offset 8) carry the same value. -/
theorem largest_bucket_is_count (containers : List String) (orgID : String) (now : Nat → Int)
    (rnd : Nat → Nat → Draws)
    (hr : ∀ n i, 0 ≤ (rnd n i).float97 ∧ (rnd n i).float97 < 1) :
    (∀ n i, 0 ≤ observedLatency (rnd n i) ∧ observedLatency (rnd n i) < 2) ∧
    (∀ n name h, (stateAfter containers orgID now rnd n).histograms name = some h →
      bucketGet h.buckets 5 = h.count) ∧
    (∀ n i, i < containers.length → ∃ v : ℚ,
      valuesAt (batch containers orgID now rnd n) i 7 = some [v] ∧
      valuesAt (batch containers orgID now rnd n) i 8 = some [v]) := by
  have hlat : ∀ n i, 0 ≤ observedLatency (rnd n i) ∧ observedLatency (rnd n i) < 2 :=
    fun n i => observedLatency_range (rnd n i) (hr n i).1 (hr n i).2
  have h5 : (5 : ℚ) ∈ boundaries := by simp [boundaries]
  refine ⟨hlat, ?_, ?_⟩
  · intro n name h hh
    have e : h = histOf (stateAfter containers orgID now rnd n) name := by simp [histOf, hh]
    obtain ⟨hc, hb⟩ := foldl_observe_new (observations containers rnd name n)
    rw [e, stateAfter_hist, hb 5 h5, hc]
    apply countP_le_five
    intro v hv
    obtain ⟨m, k, rfl⟩ := mem_observations containers rnd name v n hv
    exact (hlat m k).2
  · intro n i hi
    obtain ⟨counter, hser⟩ := batch_series containers orgID now rnd n i hi
    obtain ⟨hc, hb⟩ := foldl_observe_new (observedUpTo containers rnd containers[i] n i)
    have hcnt : bucketGet (histAt containers rnd containers[i] n i).buckets 5 =
        (histAt containers rnd containers[i] n i).count := by
      unfold histAt
      rw [hb 5 h5, hc]
      apply countP_le_five
      intro v hv
      obtain ⟨m, k, rfl⟩ := mem_observedUpTo containers rnd containers[i] v n i hv
      exact (hlat m k).2
    refine ⟨((histAt containers rnd containers[i] n i).count : ℚ), ?_, ?_⟩
    · simp only [valuesAt, hser 7 (by decide)]
      rw [← hcnt]
      rfl
    · simp only [valuesAt, hser 8 (by decide)]
      rfl

/-- An instance of the largest-bucket theorem: draws `sampleRnd`. -/
theorem largest_bucket_is_count_witness :
    (∀ n i, 0 ≤ (sampleRnd n i).float97 ∧ (sampleRnd n i).float97 < 1) ∧
    ((∀ n i, 0 ≤ observedLatency (sampleRnd n i) ∧ observedLatency (sampleRnd n i) < 2) ∧
    (∀ n name h, (stateAfter ["a", "b"] "t" sampleNow sampleRnd n).histograms name = some h →
      bucketGet h.buckets 5 = h.count) ∧
    (∀ n i, i < ["a", "b"].length → ∃ v : ℚ,
      valuesAt (batch ["a", "b"] "t" sampleNow sampleRnd n) i 7 = some [v] ∧
      valuesAt (batch ["a", "b"] "t" sampleNow sampleRnd n) i 8 = some [v])) :=
  have hr : ∀ n i, 0 ≤ (sampleRnd n i).float97 ∧ (sampleRnd n i).float97 < 1 :=
    fun _ _ => (by norm_num : (0 : ℚ) ≤ 1 / 4 ∧ (1 / 4 : ℚ) < 1)
  ⟨hr, largest_bucket_is_count ["a", "b"] "t" sampleNow sampleRnd hr⟩

/-! ## Splitting a payload -/

theorem splitNewline_payload (lines : List GoString) (h : ∀ l ∈ lines, (10 : UInt8) ∉ l) :
    splitNewline (lines.map (fun line => line ++ [10])).flatten = lines ++ [[]] := by
  induction lines with
  | nil => rfl
  | cons l ls ih =>
    have hl : ∀ x ∈ l, ¬ ((x == (10 : UInt8)) = true) := by
      intro x hx hx2
      rw [beq_iff_eq] at hx2
      exact h l (List.mem_cons_self _ _) (hx2 ▸ hx)
    have hls := ih (fun m hm => h m (List.mem_cons_of_mem _ hm))
    simp only [splitNewline, List.splitOn] at hls ⊢
    rw [List.map_cons, List.flatten_cons, List.append_assoc, List.singleton_append,
      List.splitOnP_first _ l hl 10 (by simp), hls, List.cons_append]

/-- C18: for lines without a newline byte, splitting the payload of `Serialize` at every
newline and dropping the final empty piece gives back the lines, and the length of the
payload is the sum of the lengths of the lines plus the number of lines. -/
theorem serialize_split_roundtrip (lines : List GoString)
    (h : ∀ l ∈ lines, (10 : UInt8) ∉ l) :
    (splitNewline (PlainTextReq.Serialize ⟨lines⟩).1).dropLast = lines ∧
    (splitNewline (PlainTextReq.Serialize ⟨lines⟩).1).getLast? = some [] ∧
    ((PlainTextReq.Serialize ⟨lines⟩).1.length : Int) =
      ((lines.map List.length).sum : Nat) + PlainTextReq.Size ⟨lines⟩ := by
  have hp : (PlainTextReq.Serialize ⟨lines⟩).1 =
      (lines.map (fun line => line ++ [10])).flatten := by
    simp only [PlainTextReq.Serialize]
    rw [serialize_foldl, List.nil_append]
  rw [hp, splitNewline_payload lines h]
  refine ⟨by simp, by simp, ?_⟩
  simp only [PlainTextReq.Size]
  have : ∀ ls : List GoString,
      ((ls.map (fun line => line ++ [10])).flatten).length = (ls.map List.length).sum + ls.length := by
    intro ls
    induction ls with
    | nil => rfl
    | cons l ls ih =>
      simp only [List.map_cons, List.flatten_cons, List.length_append, ih, List.sum_cons,
        List.length_cons, List.length_nil]
      omega
  rw [this]
  push_cast
  rfl

/-- An instance of the splitting theorem: the lines `a` and `bc`. -/
theorem serialize_split_roundtrip_witness :
    (∀ l ∈ ([[97], [98, 99]] : List GoString), (10 : UInt8) ∉ l) ∧
    (splitNewline (PlainTextReq.Serialize ⟨[[97], [98, 99]]⟩).1).dropLast = [[97], [98, 99]] ∧
    (splitNewline (PlainTextReq.Serialize ⟨[[97], [98, 99]]⟩).1).getLast? = some [] ∧
    ((PlainTextReq.Serialize ⟨[[97], [98, 99]]⟩).1.length : Int) =
      ((([[97], [98, 99]] : List GoString).map List.length).sum : Nat) +
        PlainTextReq.Size ⟨[[97], [98, 99]]⟩ :=
  ⟨by decide, serialize_split_roundtrip [[97], [98, 99]] (by decide)⟩

/-! ## The empty pool -/

/-- With a helper that never fails, the model with failures is the model without. -/
theorem fillLinesE_ok (pickRandom : Nat → List GoString → GoString) (Lines : List GoString)
    (n : Nat) :
    ∀ (fuel i : Nat) (lines : List GoString),
      fillLinesE (fun k pool => Except.ok (pickRandom k pool)) Lines n fuel i lines =
        Outcome.request ⟨fillLines pickRandom Lines n fuel i lines⟩ := by
  intro fuel
  induction fuel with
  | zero => intro i lines; rfl
  | succ fuel ih =>
    intro i lines
    by_cases h : i < n
    · simp only [fillLinesE, fillLines, h, if_true, ih]
    · simp only [fillLinesE, fillLines, h, if_false]

theorem generateE_ok (LinesPS : Int) (Lines : List GoString)
    (pickRandom : Nat → List GoString → GoString) :
    NewPlainTextSender.generateE LinesPS Lines (fun k pool => Except.ok (pickRandom k pool)) =
      (NewPlainTextSender.generate LinesPS Lines pickRandom).map Outcome.request := by
  unfold NewPlainTextSender.generateE NewPlainTextSender.generate
  split
  · rfl
  · rw [fillLinesE_ok]
    rfl

/-- C19: for the container name `c21`, whose checksum is a multiple of 1000, and
`random(500) = 0` (all draws within their ranges), the first call emits `p50 = 0` and
`p90 = 0` at offsets 11 and 12, so `p90 < 2.5 · p50` does not hold. -/
theorem summary_strict_bound_fails :
    ChecksumIEEE "c21" % 1000 = 0 ∧
    (0 ≤ zeroSizeDraws.random500 ∧ zeroSizeDraws.random500 < 500) ∧
    (0 ≤ zeroSizeDraws.float141 ∧ zeroSizeDraws.float141 < 1) ∧
    (0 ≤ zeroSizeDraws.float142 ∧ zeroSizeDraws.float142 < 1) ∧
    valuesAt (batch ["c21"] "t" sampleNow (fun _ _ => zeroSizeDraws) 0) 0 11 =
      some [p50Of "c21" zeroSizeDraws] ∧
    valuesAt (batch ["c21"] "t" sampleNow (fun _ _ => zeroSizeDraws) 0) 0 12 =
      some [p90Of "c21" zeroSizeDraws] ∧
    p50Of "c21" zeroSizeDraws = 0 ∧ p90Of "c21" zeroSizeDraws = 0 ∧
    ¬ (p90Of "c21" zeroSizeDraws < 2.5 * p50Of "c21" zeroSizeDraws) := by
  decide!

theorem p50Of_nonneg (c : String) (d : Draws) (h : 0 ≤ d.random500) : 0 ≤ p50Of c d := by
  unfold p50Of
  have : (0 : Int) ≤ Int.tmod (ChecksumIEEE c : Nat) 1000 :=
    Int.tmod_nonneg _ (Int.ofNat_nonneg _)
  exact_mod_cast (by omega : (0 : Int) ≤ Int.tmod (ChecksumIEEE c : Nat) 1000 + d.random500)

/-- C19 (amended): with `random(500)` in `[0,500)` and the raw uniform draws in `[0,1)`, the
quantile series of every block (offsets 11, 12, 13) carry `p50`, `p90`, `p99` with
`0 ≤ p50 ≤ p90 ≤ p99`, `1.5·p50 ≤ p90 ≤ 2.5·p50` and `1.2·p90 ≤ p99 ≤ 2.2·p90`; the two
upper bounds are strict when `p50 > 0`. -/
theorem summary_quantiles_ordered (containers : List String) (orgID : String)
    (now : Nat → Int) (rnd : Nat → Nat → Draws) (n i : Nat) (hi : i < containers.length)
    (h500 : 0 ≤ (rnd n i).random500 ∧ (rnd n i).random500 < 500)
    (h141 : 0 ≤ (rnd n i).float141 ∧ (rnd n i).float141 < 1)
    (h142 : 0 ≤ (rnd n i).float142 ∧ (rnd n i).float142 < 1) :
    valuesAt (batch containers orgID now rnd n) i 11 = some [p50Of containers[i] (rnd n i)] ∧
    valuesAt (batch containers orgID now rnd n) i 12 = some [p90Of containers[i] (rnd n i)] ∧
    valuesAt (batch containers orgID now rnd n) i 13 = some [p99Of containers[i] (rnd n i)] ∧
    0 ≤ p50Of containers[i] (rnd n i) ∧
    p50Of containers[i] (rnd n i) ≤ p90Of containers[i] (rnd n i) ∧
    p90Of containers[i] (rnd n i) ≤ p99Of containers[i] (rnd n i) ∧
    1.5 * p50Of containers[i] (rnd n i) ≤ p90Of containers[i] (rnd n i) ∧
    p90Of containers[i] (rnd n i) ≤ 2.5 * p50Of containers[i] (rnd n i) ∧
    1.2 * p90Of containers[i] (rnd n i) ≤ p99Of containers[i] (rnd n i) ∧
    p99Of containers[i] (rnd n i) ≤ 2.2 * p90Of containers[i] (rnd n i) ∧
    (0 < p50Of containers[i] (rnd n i) →
      p90Of containers[i] (rnd n i) < 2.5 * p50Of containers[i] (rnd n i) ∧
      p99Of containers[i] (rnd n i) < 2.2 * p90Of containers[i] (rnd n i)) := by
  obtain ⟨counter, hser⟩ := batch_series containers orgID now rnd n i hi
  have hp := p50Of_nonneg containers[i] (rnd n i) h500.1
  have e90 : p90Of containers[i] (rnd n i) =
      p50Of containers[i] (rnd n i) * (1.5 + (rnd n i).float141) := rfl
  have e99 : p99Of containers[i] (rnd n i) =
      p90Of containers[i] (rnd n i) * (1.2 + (rnd n i).float142) := rfl
  obtain ⟨a0, a1⟩ := h141
  obtain ⟨b0, b1⟩ := h142
  have h90 : 0 ≤ p90Of containers[i] (rnd n i) := by
    rw [e90]; exact mul_nonneg hp (by linarith)
  refine ⟨?_, ?_, ?_, hp, ?_, ?_, ?_, ?_, ?_, ?_, ?_⟩
  · simp only [valuesAt, hser 11 (by decide)]; rfl
  · simp only [valuesAt, hser 12 (by decide)]; rfl
  · simp only [valuesAt, hser 13 (by decide)]; rfl
  · rw [e90]; nlinarith
  · rw [e99]; nlinarith
  · rw [e90]; nlinarith
  · rw [e90]; nlinarith
  · rw [e99]; nlinarith
  · rw [e99]; nlinarith
  · intro hpos
    have h90pos : 0 < p90Of containers[i] (rnd n i) := by
      rw [e90]; exact mul_pos hpos (by linarith)
    constructor
    · rw [e90]; nlinarith
    · rw [e99]; nlinarith

/-- An instance of the quantile theorem: one container, draws `sampleRnd`, first call. -/
theorem summary_quantiles_ordered_witness :
    (0 : Nat) < ["a"].length ∧
    (0 ≤ (sampleRnd 0 0).random500 ∧ (sampleRnd 0 0).random500 < 500) ∧
    (0 ≤ (sampleRnd 0 0).float141 ∧ (sampleRnd 0 0).float141 < 1) ∧
    (0 ≤ (sampleRnd 0 0).float142 ∧ (sampleRnd 0 0).float142 < 1) ∧
    valuesAt (batch ["a"] "t" sampleNow sampleRnd 0) 0 11 = some [p50Of "a" (sampleRnd 0 0)] ∧
    p50Of "a" (sampleRnd 0 0) ≤ p90Of "a" (sampleRnd 0 0) ∧
    p90Of "a" (sampleRnd 0 0) ≤ p99Of "a" (sampleRnd 0 0) ∧
    (0 < p50Of "a" (sampleRnd 0 0) →
      p90Of "a" (sampleRnd 0 0) < 2.5 * p50Of "a" (sampleRnd 0 0) ∧
      p99Of "a" (sampleRnd 0 0) < 2.2 * p90Of "a" (sampleRnd 0 0)) :=
  have h := summary_quantiles_ordered ["a"] "t" sampleNow sampleRnd 0 0 (by decide)
    (by decide!) (by decide!) (by decide!)
  ⟨by decide, by decide!, by decide!, by decide!, h.1, h.2.2.2.2.1, h.2.2.2.2.2.1,
    h.2.2.2.2.2.2.2.2.2.2⟩

end Longtest
